import Mathlib

/-!
# Verification of the xrpld-hooks hook runtime

Shallow embedding of the hook execution runtime implemented in
`src/ripple/app/tx/impl/applyHook.cpp`: the decimal-float library
(`hook_float`), the guard meter (`_g`), the state cache
(`state_set` / `state_foreign`), the emission subsystem
(`etxn_reserve` / `etxn_burden` / `etxn_fee_base` / `emit`), the
serialized-object parser/editor (`get_stobject_length` /
`sto_emplace` / `sto_erase`), `hook_account`, and the commit step
(`commitChangesToLedger`).

Machine integers are modelled as `Int` / `Nat`; where the C code relies
on two's-complement bit patterns (`uint64_t` casts, shifts, masks), the
embedding makes that explicit through `u64` / `ofU64` and division /
remainder by powers of two, which are definitionally the same
operations on the value ranges the code admits.
-/

namespace HookVerify

/-! ### API constants

Modelled from the spec: the numeric values of the `hook_api` return
codes and limits live in `applyHook.h`, which is not among the sources;
the spec fixes only that error codes are negative `int64` values and
that `RC_ACCEPT` / `RC_ROLLBACK` are reserved terminal codes.  The
embedding only relies on the constants being negative and pairwise
distinct, which the values below satisfy. -/

def OUT_OF_BOUNDS : Int := -1

def INTERNAL_ERROR : Int := -2

def TOO_BIG : Int := -3

def TOO_SMALL : Int := -4

def DOESNT_EXIST : Int := -5

def INVALID_ARGUMENT : Int := -7

def ALREADY_SET : Int := -8

def PREREQUISITE_NOT_MET : Int := -9

def FEE_TOO_LARGE : Int := -10

def EMISSION_FAILURE : Int := -11

def TOO_MANY_EMITTED_TXN : Int := -13

def INVALID_ACCOUNT : Int := -15

def GUARD_VIOLATION : Int := -16

def PARSE_ERROR : Int := -18

def NOT_AN_OBJECT : Int := -23

def DIVISION_BY_ZERO : Int := -25

def INVALID_FLOAT : Int := -10024

def MANTISSA_OVERSIZED : Int := -26

def EXPONENT_OVERSIZED : Int := -28

def EXPONENT_UNDERSIZED : Int := -29

def RC_ACCEPT : Int := -30

def RC_ROLLBACK : Int := -31

/-- Modelled from the spec: `MAX_EMIT` bound checked by `etxn_reserve`
(`count > hook_api::max_emit`); the value is in the missing header. -/
def max_emit : Nat := 255

/-! ### Two's-complement helpers

`u64 i` is the 64-bit pattern of the `int64_t` value `i` (the value of
`(uint64_t)i`); `ofU64` reinterprets a 64-bit pattern as `int64_t`. -/

def u64 (i : Int) : Nat := (i % (2 ^ 64 : Int)).toNat

def ofU64 (n : Nat) : Int := if n < 2 ^ 63 then (n : Int) else (n : Int) - 2 ^ 64

/-! ### `hook_float`: the decimal-float library (applyHook.cpp lines 124-259) -/

def minMantissa : Int := 1000000000000000

def maxMantissa : Int := 9999999999999999

def minExponent : Int := -96

def maxExponent : Int := 80

/-- `hook_float::get_exponent`: bits 54..61 of the encoding, biased by 97.
The C body shifts the `uint64_t` pattern right by 54 and masks with `0xFF`,
written here as division and remainder by the matching powers of two. -/
def get_exponent (float1 : Int) : Int :=
  if float1 < 0 then INVALID_FLOAT
  else if float1 = 0 then 0
  else ((float1.toNat / 2 ^ 54) % 256 : Nat) - 97

/-- `hook_float::get_mantissa`: the low 54 bits.  The C body subtracts
`(((uint64_t)f) >> 54) << 54`, which on a non-negative value is exactly
the remainder modulo `2^54`.  (The C function returns `uint64_t`, so the
`INVALID_FLOAT` branch is the error constant cast to unsigned; callers
only reach it after a sign check.) -/
def get_mantissa (float1 : Int) : Int :=
  if float1 < 0 then INVALID_FLOAT
  else if float1 = 0 then 0
  else (float1.toNat % 2 ^ 54 : Nat)

/-- `hook_float::is_negative`: bit 62 of the pattern is clear.
(`(float1 >> 62) & 1` on `int64_t`: an arithmetic shift followed by a
one-bit mask selects bit 62 of the two's-complement pattern.) -/
def is_negative (float1 : Int) : Bool :=
  (u64 float1 / 2 ^ 62) % 2 == 0

/-- `hook_float::invert_sign`: `(uint64_t)f ^ (1ULL << 62)` reinterpreted
as `int64_t`.  Xor with the single bit 62 adds the bit when it is clear
and removes it when it is set. -/
def invert_sign (float1 : Int) : Int :=
  let n := u64 float1
  ofU64 (if (n / 2 ^ 62) % 2 = 1 then n - 2 ^ 62 else n + 2 ^ 62)

/-- `hook_float::set_sign` (note the inverted convention: bit 62 clear
means negative). -/
def set_sign (float1 : Int) (set_negative : Bool) : Int :=
  let neg := is_negative float1
  if (neg && set_negative) || (!neg && !set_negative) then float1
  else invert_sign float1

/-- `hook_float::set_mantissa`. -/
def set_mantissa (float1 : Int) (mantissa : Int) : Int :=
  if mantissa > maxMantissa then MANTISSA_OVERSIZED
  else float1 - get_mantissa float1 + mantissa

/-- `hook_float::set_exponent`: clear bits 54..61 of the pattern, then add
`(exponent + 97) << 54`. -/
def set_exponent (float1 : Int) (exponent : Int) : Int :=
  if exponent > maxExponent then EXPONENT_OVERSIZED
  else if exponent < minExponent then EXPONENT_UNDERSIZED
  else
    let e : Nat := (exponent + 97).toNat * 2 ^ 54
    let n : Nat := u64 float1
    let cleared : Nat := n - ((n / 2 ^ 54) % 256) * 2 ^ 54
    ofU64 ((cleared + e) % 2 ^ 64)

/-- `hook_float::make_float(int64_t mantissa, int32_t exponent)`
(applyHook.cpp lines 210-228). -/
def make_float (mantissa : Int) (exponent : Int) : Int :=
  if mantissa = 0 then 0
  else if mantissa > maxMantissa then MANTISSA_OVERSIZED
  else if exponent > maxExponent then EXPONENT_OVERSIZED
  else if exponent < minExponent then EXPONENT_UNDERSIZED
  else
    let neg := mantissa < 0
    let m := if neg then mantissa * -1 else mantissa
    let out := set_mantissa 0 m
    let out := set_exponent out exponent
    set_sign out neg

/-- The mantissa-raising loop of `float_set`
(`while (mantissa < minMantissa) { mantissa *= 10; exp--; if (exp < minExponent) return INVALID_FLOAT; }`);
`none` is the underflow exit. -/
def normUp (mantissa exp : Int) : Option (Int × Int) :=
  if mantissa < minMantissa then
    if exp - 1 < minExponent then none
    else normUp (mantissa * 10) (exp - 1)
  else some (mantissa, exp)
termination_by (exp - minExponent).toNat
decreasing_by simp only [minExponent] at *; omega

/-- The mantissa-lowering loop of `float_set`
(`while (mantissa > maxMantissa) { mantissa /= 10; exp++; if (exp > maxExponent) return INVALID_FLOAT; }`);
`none` is the overflow exit. -/
def normDown (mantissa exp : Int) : Option (Int × Int) :=
  if mantissa > maxMantissa then
    if exp + 1 > maxExponent then none
    else normDown (mantissa / 10) (exp + 1)
  else some (mantissa, exp)
termination_by (maxExponent - exp).toNat
decreasing_by simp only [maxExponent] at *; omega

/-- `float_set` (both the `hook_float::float_set` helper and the identical
ABI function at applyHook.cpp lines 3020-3045): normalize, then build the
encoding with `make_float`. -/
def float_set (exp : Int) (mantissa : Int) : Int :=
  if mantissa = 0 then 0
  else
    let neg := mantissa < 0
    let m := if neg then mantissa * -1 else mantissa
    match normUp m exp with
    | none => INVALID_FLOAT
    | some (m1, e1) =>
      match normDown m1 e1 with
      | none => INVALID_FLOAT
      | some (m2, e2) => make_float ((if neg then -1 else 1) * m2) e2



/-- Mantissa-lowering loop shared by `float_divide_internal`
(applyHook.cpp lines 3528-3534 for `man1`, 3585-3591 for `man3`):
`while (man > maxMantissa) { man /= 10; exp++; if (exp > maxExponent)
return INVALID_FLOAT; }`; the error value is the function's early
return. -/
def divNormDown (man : Nat) (exp : Int) : Except Int (Nat × Int) :=
  if maxMantissa.toNat < man then
    if exp + 1 > maxExponent then Except.error INVALID_FLOAT
    else divNormDown (man / 10) (exp + 1)
  else Except.ok (man, exp)
termination_by (maxExponent - exp).toNat
decreasing_by simp only [maxExponent] at *; omega

/-- Mantissa-raising loop shared by `float_divide_internal`
(applyHook.cpp lines 3536-3542 for `man1`, 3577-3583 for `man3`):
`while (man < minMantissa) { man *= 10; exp--; if (exp < minExponent)
return 0; }`; the underflow early-returns 0. -/
def divNormUp (man : Nat) (exp : Int) : Except Int (Nat × Int) :=
  if man < minMantissa.toNat then
    if exp - 1 < minExponent then Except.error 0
    else divNormUp (man * 10) (exp - 1)
  else Except.ok (man, exp)
termination_by (exp - minExponent).toNat
decreasing_by simp only [minExponent] at *; omega

/-- Divisor-shrinking loop of `float_divide_internal` (applyHook.cpp
lines 3545-3549): `while (man2 > man1) { man2 /= 10; exp2++; }`. -/
def divShrinkMan2 (man1 man2 : Nat) (exp2 : Int) : Nat × Int :=
  if man1 < man2 then divShrinkMan2 man1 (man2 / 10) (exp2 + 1)
  else (man2, exp2)
termination_by man2
decreasing_by omega

/-- Divisor-growing loop of `float_divide_internal` (applyHook.cpp
lines 3554-3560): `while (man2 < man1) { if (man2*10 > man1) break;
man2 *= 10; exp2--; }`.  The `0 < man2` conjunct is the enclosing
code's invariant (`man2 == 0` has already returned DIVISION_BY_ZERO)
and makes the recursion well-founded. -/
def divGrowMan2 (man1 man2 : Nat) (exp2 : Int) : Nat × Int :=
  if 0 < man2 ∧ man2 < man1 then
    if man1 < man2 * 10 then (man2, exp2)
    else divGrowMan2 man1 (man2 * 10) (exp2 - 1)
  else (man2, exp2)
termination_by man1 - man2
decreasing_by omega

/-- Digit loop of `float_divide_internal` (applyHook.cpp line 3567):
`for (i = 0; man1 > man2; man1 -= man2, ++i);`, returning the final
remainder and count.  The `0 < man2` conjunct is the enclosing loop's
condition (`while (man2 > 0)`) and makes the recursion well-founded. -/
def divSubtract (man2 man1 i : Nat) : Nat × Nat :=
  if 0 < man2 ∧ man2 < man1 then divSubtract man2 (man1 - man2) (i + 1)
  else (man1, i)
termination_by man1
decreasing_by omega

/-- Long-division loop of `float_divide_internal` (applyHook.cpp lines
3564-3575): `while (man2 > 0) { ...digit...; man3 = man3*10 + i;
man2 /= 10; if (man2 == 0) break; exp3--; }`. -/
def divLoop (man1 man2 man3 : Nat) (exp3 : Int) : Nat × Int :=
  if man2 = 0 then (man3, exp3)
  else
    let s := divSubtract man2 man1 0
    let man3n := man3 * 10 + s.2
    let man2n := man2 / 10
    if man2n = 0 then (man3n, exp3)
    else divLoop s.1 man2n man3n (exp3 - 1)
termination_by man2
decreasing_by omega

/-- `float_divide` (applyHook.cpp lines 3512-3609, via
`float_divide_internal`): validate both inputs with
`RETURN_IF_INVALID_FLOAT` (lines 2977-2990), normalize `man1`, align
`man2`, long-divide, normalize `man3` -- each loop guarding its own
exponent bound -- and assemble the result as
`set_mantissa(set_exponent(set_sign(0, neg3), exp3), man3)` (lines
3594-3598).  Note there is no final range check: when `man3` needs no
normalization, an out-of-range `exp3` reaches `set_exponent`, whose
error code then flows into `set_mantissa` as an ordinary operand. -/
def float_divide (float1 float2 : Int) : Int :=
  if float1 < 0 then INVALID_FLOAT
  else if float1 ≠ 0 ∧ (get_mantissa float1 < minMantissa ∨
      get_mantissa float1 > maxMantissa ∨
      get_exponent float1 > maxExponent ∨
      get_exponent float1 < minExponent) then INVALID_FLOAT
  else if float2 < 0 then INVALID_FLOAT
  else if float2 ≠ 0 ∧ (get_mantissa float2 < minMantissa ∨
      get_mantissa float2 > maxMantissa ∨
      get_exponent float2 > maxExponent ∨
      get_exponent float2 < minExponent) then INVALID_FLOAT
  else if float2 = 0 then DIVISION_BY_ZERO
  else if float1 = 0 then 0
  else
    let neg1 := is_negative float1
    let neg2 := is_negative float2
    match divNormDown (get_mantissa float1).toNat (get_exponent float1) with
    | Except.error r => r
    | Except.ok (m1a, e1a) =>
      match divNormUp m1a e1a with
      | Except.error r => r
      | Except.ok (man1, exp1) =>
        let p := divShrinkMan2 man1 (get_mantissa float2).toNat
          (get_exponent float2)
        if p.1 = 0 then DIVISION_BY_ZERO
        else
          let q := divGrowMan2 man1 p.1 p.2
          let d := divLoop man1 q.1 0 (exp1 - q.2)
          match divNormUp d.1 d.2 with
          | Except.error r => r
          | Except.ok (m3a, e3a) =>
            match divNormDown m3a e3a with
            | Except.error r => r
            | Except.ok (man3, exp3) =>
              let neg3 := !((neg1 && neg2) || (!neg1 && !neg2))
              set_mantissa (set_exponent (set_sign 0 neg3) exp3) (man3 : Int)

/-! ### Guard metering: `_g` (applyHook.cpp lines 2942-2975) -/

/-- `hook_api::ExitType`.  Modelled from the spec: the enum itself lives in
the missing header; only the three states named by the spec are used. -/
inductive ExitType where
  | ACCEPT
  | ROLLBACK
  | WASM_ERROR
deriving DecidableEq, Repr

/-- The per-invocation data `_g` touches: the guard counters and the exit
result.  `guard_map` maps a guard id to its iteration count; an id absent
from the C `std::map` is represented by count `0` (the C code inserts `1`
on first sight, which is exactly an increment from `0`). -/
structure GuardState where
  guard_map : Nat → Nat
  exitType : ExitType
  exitCode : Int

/-- The guard function `_g(id, maxitr)`: increment the counter and, past
`maxitr`, set the exit to `ROLLBACK` / `GUARD_VIOLATION` and return
`RC_ROLLBACK`; otherwise return `1`. -/
def _g (id maxitr : Nat) (st : GuardState) : Int × GuardState :=
  let count := st.guard_map id + 1
  let st1 : GuardState :=
    { st with guard_map := fun k => if k = id then count else st.guard_map k }
  if count > maxitr then
    (RC_ROLLBACK, { st1 with exitType := ExitType.ROLLBACK, exitCode := GUARD_VIOLATION })
  else (1, st1)

/-- `k` sequential calls of `_g id maxitr`, returning the final state and
the list of returned codes in call order. -/
def gRun (id maxitr : Nat) : Nat → GuardState → GuardState × List Int
  | 0, st => (st, [])
  | k + 1, st =>
    let r := _g id maxitr st
    let rest := gRun id maxitr k r.2
    (rest.1, r.1 :: rest.2)


/-! ### Guest memory and the ABI memory macros -/

/-- Guest linear memory: a byte function plus the region length
(`memory` / `memory_length` from `HOOK_SETUP`). -/
structure Memory where
  bytes : Nat → UInt8
  length : Nat

/-- The `NOT_IN_BOUNDS(ptr, len, memory_length)` macro (applyHook.cpp
lines 94-96): `ptr > memory_length || ptr + len > memory_length`,
computed in unsigned 64-bit arithmetic (`ptr` and `len` are 32-bit
values, so the sum cannot wrap). -/
def NOT_IN_BOUNDS (ptr len memory_length : Nat) : Bool :=
  ptr > memory_length || ptr + len > memory_length

/-- Read `len` guest bytes starting at `ptr`. -/
def readBytes (m : Memory) (ptr len : Nat) : List UInt8 :=
  (List.range len).map (fun i => m.bytes (ptr + i))

/-- `WRITE_WASM_MEMORY_AND_RETURN`: write `min(host_len, guest_len)`
bytes of `src` at `guest_dst_ptr`, failing with `OUT_OF_BOUNDS` when the
write would pass the end of guest memory; on success return the byte
count written. -/
def writeWasmMemory (m : Memory) (guest_dst_ptr guest_dst_len : Nat)
    (src : List UInt8) : Int × Memory :=
  let bytes_to_write := min src.length guest_dst_len
  if guest_dst_ptr + bytes_to_write > m.length then (OUT_OF_BOUNDS, m)
  else
    ((bytes_to_write : Int),
      { m with bytes := fun i =>
          if guest_dst_ptr ≤ i ∧ i < guest_dst_ptr + bytes_to_write
          then src.getD (i - guest_dst_ptr) 0 else m.bytes i })

/-- `hook_account` (applyHook.cpp lines 2172-2186): bound-check a fixed
20 bytes at `write_ptr` (the guest-supplied `ptr_len` is not consulted)
and write the 20-byte installed-account id. -/
def hook_account (account : List UInt8) (m : Memory)
    (write_ptr ptr_len : Nat) : Int × Memory :=
  if NOT_IN_BOUNDS write_ptr 20 m.length then (OUT_OF_BOUNDS, m)
  else writeWasmMemory m write_ptr 20 account

/-! ### The state subsystem (applyHook.cpp lines 642-979) -/

/-- `data_as_int64`: interpret up to 8 bytes big-endian; a set high bit
(which would make the `int64` negative) yields `TOO_BIG`. -/
def data_as_int64 (b : List UInt8) : Int :=
  if b.length > 8 then TOO_BIG
  else
    let output : Nat := b.foldl (fun acc x => acc * 256 + x.toNat) 0
    if 2 ^ 63 ≤ output then TOO_BIG else (output : Int)

/-- `make_state_key`: left-zero-pad a 1..32 byte key to 32 bytes. -/
def make_state_key (source : List UInt8) : Option (List UInt8) :=
  if source.length > 32 || source.length < 1 then none
  else some (List.replicate (32 - source.length) 0 ++ source)

/-- The per-invocation state cache `changedState`: an association list
from the 32-byte padded key to `(dirty, value)`, modelling the
`std::map` (keys kept unique by the update operations). -/
def cacheLookup (cache : List (List UInt8 × Bool × List UInt8))
    (key : List UInt8) : Option (Bool × List UInt8) :=
  match cache with
  | [] => none
  | (k, v) :: rest => if k = key then some v else cacheLookup rest key

/-- `(*changedState)[key] = v` — insert or overwrite. -/
def cacheSet (cache : List (List UInt8 × Bool × List UInt8))
    (key : List UInt8) (v : Bool × List UInt8) :
    List (List UInt8 × Bool × List UInt8) :=
  (key, v) :: cache.filter (fun e => e.1 ≠ key)

/-- `changedState->emplace(key, v)` — insert only when absent. -/
def cacheEmplace (cache : List (List UInt8 × Bool × List UInt8))
    (key : List UInt8) (v : Bool × List UInt8) :
    List (List UInt8 × Bool × List UInt8) :=
  if (cacheLookup cache key).isSome then cache else (key, v) :: cache

/-- The ledger context the state host calls consult, an abstraction of
the external `LedgerView` capability: the hook ledger object (carrying
`sfHookStateDataMaxSize`; `none` when `view.peek(hookKeylet)` fails) and
the persisted hook-state entries keyed by `(account id bytes, padded key)`. -/
structure StateEnv where
  hookStateDataMaxSize : Option Nat
  stateEntry : List UInt8 → List UInt8 → Option (List UInt8)
  ownAccount : List UInt8

/-- `state_set` (applyHook.cpp lines 674-715): bound-check a fixed 32
bytes at the key pointer, accept `read_ptr = read_len = 0` as a delete,
validate the key length and the per-hook size limit, then stage
`(dirty = true, value)` into the cache and return `read_len`. -/
def state_set (env : StateEnv) (m : Memory)
    (cache : List (List UInt8 × Bool × List UInt8))
    (read_ptr read_len kread_ptr kread_len : Nat) :
    Int × List (List UInt8 × Bool × List UInt8) :=
  if NOT_IN_BOUNDS kread_ptr 32 m.length then (OUT_OF_BOUNDS, cache)
  else if ¬ (read_ptr = 0 ∧ read_len = 0) ∧
      NOT_IN_BOUNDS read_ptr read_len m.length then (OUT_OF_BOUNDS, cache)
  else if kread_len > 32 then (TOO_BIG, cache)
  else if kread_len < 1 then (TOO_SMALL, cache)
  else
    match env.hookStateDataMaxSize with
    | none => (INTERNAL_ERROR, cache)
    | some maxSize =>
      if read_len > maxSize then (TOO_BIG, cache)
      else
        let key := (make_state_key (readBytes m kread_ptr kread_len)).getD []
        ((read_len : Int),
          cacheSet cache key (true, readBytes m read_ptr read_len))

/-- `state_foreign` (applyHook.cpp lines 895-979); `state(w, wl, k, kl)`
is `state_foreign(w, wl, k, kl, 0, 0)`.  Local reads consult the cache
first; misses peek the ledger entry, cache it clean, and serve it
(either big-endian-decoded when `write_ptr = 0`, or copied out). -/
def state_foreign (env : StateEnv) (m : Memory)
    (cache : List (List UInt8 × Bool × List UInt8))
    (write_ptr write_len kread_ptr kread_len aread_ptr aread_len : Nat) :
    Int × Memory × List (List UInt8 × Bool × List UInt8) :=
  let is_foreign := aread_ptr ≠ 0
  if NOT_IN_BOUNDS kread_ptr kread_len m.length ||
      NOT_IN_BOUNDS aread_ptr aread_len m.length ||
      NOT_IN_BOUNDS write_ptr write_len m.length then (OUT_OF_BOUNDS, m, cache)
  else if kread_len > 32 then (TOO_BIG, m, cache)
  else if is_foreign ∧ aread_len ≠ 20 then (INVALID_ACCOUNT, m, cache)
  else
    match make_state_key (readBytes m kread_ptr kread_len) with
    | none => (INVALID_ARGUMENT, m, cache)
    | some key =>
      match if is_foreign then none else cacheLookup cache key with
      | some entry =>
        if write_ptr = 0 then (data_as_int64 entry.2, m, cache)
        else if entry.2.length > write_len then (TOO_SMALL, m, cache)
        else
          let w := writeWasmMemory m write_ptr write_len entry.2
          (w.1, w.2, cache)
      | none =>
        match env.hookStateDataMaxSize with
        | none => (INTERNAL_ERROR, m, cache)
        | some _ =>
          match env.stateEntry
              (if is_foreign then readBytes m aread_ptr 20 else env.ownAccount)
              key with
          | none => (DOESNT_EXIST, m, cache)
          | some b =>
            let cache1 :=
              if is_foreign then cache else cacheEmplace cache key (false, b)
            if write_ptr = 0 then (data_as_int64 b, m, cache1)
            else if b.length > write_len then (TOO_SMALL, m, cache1)
            else
              let w := writeWasmMemory m write_ptr write_len b
              (w.1, w.2, cache1)

/-- The `state` host call: a local (own-account) `state_foreign`. -/
def state_read (env : StateEnv) (m : Memory)
    (cache : List (List UInt8 × Bool × List UInt8))
    (write_ptr write_len kread_ptr kread_len : Nat) :
    Int × Memory × List (List UInt8 × Bool × List UInt8) :=
  state_foreign env m cache write_ptr write_len kread_ptr kread_len 0 0


/-! ### The commit step (applyHook.cpp lines 718-877) -/

/-- `cclAPPLY` / `cclREMOVE` mode bits (the mode-table comment at
applyHook.cpp lines 722-732: low bit = apply, high bit = remove). -/
def cclAPPLY : Nat := 1

def cclREMOVE : Nat := 2

/-- The fields of a `HookResult` consumed by `commitChangesToLedger`.
`hookSetTxnID` is the id of the SetHook transaction; `hookHash` is the
hash of the hook bytecode (per the comment on `hook::apply`, "used for
metadata").  Keys and ids are abstracted to `Nat` (256-bit values). -/
structure HookResultM where
  hookSetTxnID : Nat
  hookHash : Nat
  account : Nat
  exitType : ExitType
  exitReason : List UInt8
  exitCode : Int
  instructionCount : Nat
  changedState : List (Nat × Bool × List UInt8)
  emittedTxn : List Nat

/-- The ledger-side context of the commit step, an abstraction of the
external `ApplyContext` / `ApplyViewImpl` capabilities: whether the view
is open, whether the originating transaction carries `sfEmitDetails`,
which emitted-txn keylets already exist, which directory pages
`dirAppend` can supply, the next hook execution index, and whether the
`cclREMOVE` directory removal succeeds. -/
structure CommitEnv where
  view_open : Bool
  tx_has_emitDetails : Bool
  emittedExists : Nat → Bool
  dirPage : Nat → Option Nat
  nextHookExecutionIndex : Nat
  removeOk : Bool

/-- One `sfHookExecution` metadata object (applyHook.cpp lines 858-876). -/
structure HookExecutionMeta where
  hookResultField : ExitType
  hookHashField : Nat
  hookAccountField : Nat
  hookReturnCode : Nat
  hookReturnString : List UInt8
  hookInstructionCount : Nat
  hookEmitCount : Nat
  hookExecutionIndex : Nat
  hookStateChangeCount : Nat
deriving DecidableEq

/-- The side effects of one `commitChangesToLedger` call. -/
structure CommitEffects where
  stateWrites : List (Nat × List UInt8)
  emittedInserts : List Nat
  removedEmittedEntry : Bool
  metaRecords : List HookExecutionMeta

/-- The emitted-transaction insertion loop: ids whose keylet already
exists are skipped; otherwise the emission count is incremented *before*
`dirAppend`, and a full directory stops the loop, keeping prior
insertions. -/
def processEmitted (exists? : Nat → Bool) (page : Nat → Option Nat) :
    List Nat → Nat × List Nat
  | [] => (0, [])
  | id :: rest =>
    if exists? id then processEmitted exists? page rest
    else
      match page id with
      | some _ =>
        let r := processEmitted exists? page rest
        (r.1 + 1, id :: r.2)
      | none => (1, [])

/-- `commitChangesToLedger(hookResult, applyCtx, cclMode)`: mode `0` is
invalid (early return, nothing recorded); `cclAPPLY` flushes dirty state
entries (via the external `setHookState`, abstracted to the list of
writes) and inserts emitted transactions; an *open* view returns before
any emitted-directory work or metadata; otherwise `cclREMOVE` removes
the activating emitted transaction's directory entry, and exactly one
`sfHookExecution` metadata record is appended — with the `sfHookHash`
field set from `hookResult.hookSetTxnID` and the return code re-encoded
into a `u64` with the high bit as negative flag. -/
def commitChangesToLedger (res : HookResultM) (env : CommitEnv)
    (cclMode : Nat) : CommitEffects :=
  if cclMode = 0 then ⟨[], [], false, []⟩
  else
    let dirty := res.changedState.filter (fun e => e.2.1)
    let stateWrites :=
      if cclMode &&& cclAPPLY ≠ 0 then dirty.map (fun e => (e.1, e.2.2)) else []
    let change_count := stateWrites.length
    if env.view_open then ⟨stateWrites, [], false, []⟩
    else
      let exec_index := env.nextHookExecutionIndex
      let emitted :=
        if cclMode &&& cclAPPLY ≠ 0 then
          processEmitted env.emittedExists env.dirPage res.emittedTxn
        else (0, [])
      let removed :=
        cclMode &&& cclREMOVE ≠ 0 ∧ env.tx_has_emitDetails = true ∧
          env.removeOk = true
      let unsigned_exit_code : Nat :=
        if 0 ≤ res.exitCode then res.exitCode.toNat
        else 2 ^ 63 + (-res.exitCode).toNat
      ⟨stateWrites, emitted.2, decide removed,
        [{ hookResultField := res.exitType,
           hookHashField := res.hookSetTxnID,
           hookAccountField := res.account,
           hookReturnCode := unsigned_exit_code,
           hookReturnString := res.exitReason,
           hookInstructionCount := res.instructionCount,
           hookEmitCount := emitted.1,
           hookExecutionIndex := exec_index,
           hookStateChangeCount := change_count }]⟩


/-! ### The emission subsystem (applyHook.cpp lines 1069-1135, 1927-2260, 2843-2876) -/

/-- The `sfEmitDetails` sub-object of a candidate emitted transaction
(each field optional: `emit` checks presence before reading). -/
structure EmitDetailsM where
  gen : Option Nat
  bur : Option Nat
  parentTxnID : Option Nat
  nonce : Option Nat
  callback : Option Nat

/-- The fields of a deserialized candidate transaction that `emit`
examines.  Deserialization itself (`STTx` / `SerialIter`) is the
external `StObject` capability; `emit` receives the parse result.
`statusNew` models `tpTrans->getStatus() == NEW`. -/
structure STTxM where
  seq : Option Nat
  signingPubKey : Option (List UInt8)
  emitDetails : Option EmitDetailsM
  sigPresent : Bool
  lls : Option Nat
  fls : Option Nat
  fee : Option Int
  statusNew : Bool

/-- The environment of the emission host calls: the `fee_base()` value
(the ledger's fee base times `fee_base_multiplier`, an external ledger
quantity), `hook_api::drops_per_byte` (value in the missing header, kept
as a parameter), the originating transaction's `sfEmitDetails` data, the
current transaction id, the validated ledger index, and the hook
account. -/
structure EmitEnv where
  base_fee : Nat
  drops_per_byte : Nat
  otxn_has_emitDetails : Bool
  otxn_emitBurden : Option Nat
  otxn_emitGeneration : Option Nat
  otxn_txnID : Nat
  validLedgerIndex : Nat
  hookAccount : Nat

/-- The per-invocation emission state: `expected_etxn_count` (sentinel
`-1` = not reserved), the cached `fee_base`, the emitted-transaction
FIFO and the nonces issued this run. -/
structure EmitCtx where
  expected_etxn_count : Int
  fee_base : Int
  emittedTxn : List STTxM
  nonce_used : List Nat

/-- `otxn_burden` (applyHook.cpp lines 1071-1095): 1 unless the
originating transaction is itself emitted; a present `sfEmitBurden` is
masked to its low 63 bits.  (The `hookCtx.burden` memoization is
value-transparent — the cached value is always the value computed here —
so the model is pure.) -/
def otxn_burden (env : EmitEnv) : Int :=
  if env.otxn_has_emitDetails then
    match env.otxn_emitBurden with
    | none => 1
    | some b => ((b % 2 ^ 63 : Nat) : Int)
  else 1

/-- `otxn_generation` (applyHook.cpp lines 1099-1127): 1 unless emitted;
a present `sfEmitGeneration` is incremented with a `u32` wrap guard.
(The memoization is value-transparent, as for `otxn_burden`.) -/
def otxn_generation (env : EmitEnv) : Int :=
  if env.otxn_has_emitDetails then
    match env.otxn_emitGeneration with
    | none => 1
    | some g => if g + 1 < 2 ^ 32 then ((g : Int) + 1) else (g : Int)
  else 1

/-- `etxn_generation = otxn_generation + 1`. -/
def etxn_generation (env : EmitEnv) : Int :=
  otxn_generation env + 1

/-- `etxn_burden` (applyHook.cpp lines 2244-2260):
`otxn_burden * expected_etxn_count` in `uint64` with a wrap guard. -/
def etxn_burden (env : EmitEnv) (ctx : EmitCtx) : Int :=
  if ctx.expected_etxn_count ≤ -1 then PREREQUISITE_NOT_MET
  else
    let last : Nat := (otxn_burden env).toNat
    let burden : Nat := (last * ctx.expected_etxn_count.toNat) % 2 ^ 64
    if burden < last then FEE_TOO_LARGE else (burden : Int)

/-- `etxn_reserve` (applyHook.cpp lines 2225-2241). -/
def etxn_reserve (ctx : EmitCtx) (count : Nat) : Int × EmitCtx :=
  if ctx.expected_etxn_count > -1 then (ALREADY_SET, ctx)
  else if count > max_emit then (TOO_BIG, ctx)
  else ((count : Int), { ctx with expected_etxn_count := (count : Int) })

/-- `etxn_fee_base` (applyHook.cpp lines 2853-2876): `fee = base_fee *
burden` in `uint64` with wrap/high-bit guards (`fee & (3ULL << 62)`
nonzero is `fee / 2^62 ≠ 0`); the guarded `fee` is memoized into
`hookCtx.fee_base` and `fee * drops_per_byte * tx_byte_count` is
returned (as the `int64` reinterpretation of the `uint64` product). -/
def etxn_fee_base (env : EmitEnv) (ctx : EmitCtx) (tx_byte_count : Nat) :
    Int × EmitCtx :=
  if ctx.expected_etxn_count ≤ -1 then (PREREQUISITE_NOT_MET, ctx)
  else
    let burden := etxn_burden env ctx
    if burden < 1 then (FEE_TOO_LARGE, ctx)
    else
      let fee : Nat := (env.base_fee * burden.toNat) % 2 ^ 64
      if fee < burden.toNat ∨ fee / 2 ^ 62 ≠ 0 then (FEE_TOO_LARGE, ctx)
      else (ofU64 ((fee * env.drops_per_byte * tx_byte_count) % 2 ^ 64),
        { ctx with fee_base := (fee : Int) })

/-- Rules 1..6 of `emit` (applyHook.cpp lines 1976-2110), which inspect
the candidate transaction and mutate nothing; each violation returns
`EMISSION_FAILURE`, so their conjunction decides that whole segment. -/
def emitRules1to6 (env : EmitEnv) (ctx : EmitCtx) (tx : STTxM) : Bool :=
  -- rule 1: sfSequence present and 0
  (tx.seq = some 0) &&
  -- rule 2: sfSigningPubKey present, length 0 or 33, all zero
  (match tx.signingPubKey with
   | none => false
   | some pk => (pk.length = 33 || pk.length = 0) && pk.all (fun b => b = 0)) &&
  -- rule 3: sfEmitDetails present, all five subfields present and correct
  (match tx.emitDetails with
   | none => false
   | some d =>
     match d.gen, d.bur, d.parentTxnID, d.nonce, d.callback with
     | some gen, some bur, some ptx, some nonce, some cb =>
       ((gen : Int) = (u64 (etxn_generation env) % 2 ^ 32 : Nat)) &&
       ((bur : Nat) = u64 (etxn_burden env ctx)) &&
       (ptx = env.otxn_txnID) &&
       (ctx.nonce_used.contains nonce) &&
       (cb = env.hookAccount)
     | _, _, _, _, _ => false) &&
  -- rule 4: sfSignature absent
  (!tx.sigPresent) &&
  -- rule 5: sfLastLedgerSequence present and past the next ledger
  (match tx.lls with
   | none => false
   | some l => decide (env.validLedgerIndex + 1 + 1 ≤ l)) &&
  -- rule 6: sfFirstLedgerSequence present and not past sfLastLedgerSequence
  (match tx.fls, tx.lls with
   | some f, some l => decide (f ≤ l)
   | _, _ => false)

/-- `emit` (applyHook.cpp lines 1929-2150).  The `parse` argument is
what the `read_len` bytes at `read_ptr` deserialize to (`none` when the
`STTx` constructor throws). -/
def emit (env : EmitEnv) (ctx : EmitCtx) (m : Memory)
    (read_ptr read_len : Nat) (parse : Option STTxM) : Int × EmitCtx :=
  if NOT_IN_BOUNDS read_ptr read_len m.length then (OUT_OF_BOUNDS, ctx)
  else if ctx.expected_etxn_count < 0 then (PREREQUISITE_NOT_MET, ctx)
  else if (ctx.emittedTxn.length : Int) ≥ ctx.expected_etxn_count then
    (TOO_MANY_EMITTED_TXN, ctx)
  else
    match parse with
    | none => (EMISSION_FAILURE, ctx)
    | some tx =>
      if ¬ emitRules1to6 env ctx tx then (EMISSION_FAILURE, ctx)
      else
        -- rule 7: fee at least the emission fee floor
        let ctx1 := if ctx.fee_base = 0 then
            { ctx with fee_base := (etxn_fee_base env ctx read_len).1 }
          else ctx
        let minfee : Int := ctx1.fee_base * env.drops_per_byte * read_len
        if minfee < 0 ∨ ctx1.fee_base < 0 then (EMISSION_FAILURE, ctx1)
        else
          match tx.fee with
          | none => (EMISSION_FAILURE, ctx1)
          | some fee =>
            if fee < minfee then (EMISSION_FAILURE, ctx1)
            else if ¬ tx.statusNew then (EMISSION_FAILURE, ctx1)
            else ((read_len : Int), { ctx1 with emittedTxn := ctx1.emittedTxn ++ [tx] })

/-- A sequence of `emit` calls (inputs in call order), returning the
final context and the list of results. -/
def runEmits (env : EmitEnv) (m : Memory) :
    List (Nat × Nat × Option STTxM) → EmitCtx → EmitCtx × List Int
  | [], ctx => (ctx, [])
  | (rp, rl, p) :: rest, ctx =>
    let r := emit env ctx m rp rl p
    let q := runEmits env m rest r.2
    (q.1, r.1 :: q.2)

/-- Modelled from the spec: the fee floor claimed in §4.5 rule 7,
`base_fee · burden · drops_per_byte · byte_count` (`base_fee` being the
ledger fee base times the fee-base multiplier, here `env.base_fee`, and
`burden` the emission burden `etxn_burden`).  This follows the spec's
words, to be compared against the floor `emit` actually enforces. -/
def spec_min_fee (env : EmitEnv) (ctx : EmitCtx) (byte_count : Nat) : Int :=
  (env.base_fee : Int) * etxn_burden env ctx * env.drops_per_byte * byte_count


/-! ### `float_sto` / `float_sto_set` (applyHook.cpp lines 3298-3511) -/

/-- The `exp < -6` loop of `float_sto`'s XRP path:
`while (exp < -6) { man /= 10; exp++; }`. -/
def xrpNormDown (man : Nat) (exp : Int) : Nat × Int :=
  if exp < -6 then xrpNormDown (man / 10) (exp + 1) else (man, exp)
termination_by ((-6) - exp).toNat
decreasing_by omega

/-- The `exp > -6` loop of `float_sto`'s XRP path:
`while (exp > -6) { man *= 10; exp--; }` (`uint64` wrap). -/
def xrpNormUp (man : Nat) (exp : Int) : Nat :=
  if exp > -6 then xrpNormUp (man * 10 % 2 ^ 64) (exp - 1) else man
termination_by (exp + 6).toNat
decreasing_by omega

/-- The 8 amount bytes of the XRP-native serialization (applyHook.cpp
lines 3394-3402): sign bit `0x40` = positive, then the low 62 bits of
the drops value big-endian. -/
def xrpAmountBytes (neg : Bool) (man : Nat) : List UInt8 :=
  [UInt8.ofNat ((if neg then 0 else 64) + man / 2 ^ 56 % 64),
   UInt8.ofNat (man / 2 ^ 48 % 256),
   UInt8.ofNat (man / 2 ^ 40 % 256),
   UInt8.ofNat (man / 2 ^ 32 % 256),
   UInt8.ofNat (man / 2 ^ 24 % 256),
   UInt8.ofNat (man / 2 ^ 16 % 256),
   UInt8.ofNat (man / 2 ^ 8 % 256),
   UInt8.ofNat (man % 256)]

/-- The 8 amount bytes of the non-native (IOU) serialization
(applyHook.cpp lines 3411-3428): not-XRP bit, sign bit (`0x40` =
positive), 8-bit biased exponent, 54-bit mantissa big-endian. -/
def iouAmountBytes (neg : Bool) (e97 man : Nat) : List UInt8 :=
  [UInt8.ofNat ((if neg then 128 else 192) + e97 / 4),
   UInt8.ofNat (e97 % 4 * 64 + man / 2 ^ 48 % 64),
   UInt8.ofNat (man / 2 ^ 40 % 256),
   UInt8.ofNat (man / 2 ^ 32 % 256),
   UInt8.ofNat (man / 2 ^ 24 % 256),
   UInt8.ofNat (man / 2 ^ 16 % 256),
   UInt8.ofNat (man / 2 ^ 8 % 256),
   UInt8.ofNat (man % 256)]

/-- `float_sto` (applyHook.cpp lines 3298-3453), as the byte string it
writes: optional field header, 8 amount bytes (XRP-native when
`field_code = 0`, bare IOU amount when `field_code = 0xFFFFFFFF`,
IOU amount otherwise), then currency and issuer for the wrapped IOU
form.  Guest-buffer plumbing (`write_ptr` / `write_len` bounds and the
`TOO_SMALL` size check) is elided; outputs are returned directly. -/
def float_sto (cur iss : List UInt8) (float1 : Int) (field_code : Nat) :
    Except Int (List UInt8) :=
  if float1 < 0 then Except.error INVALID_FLOAT
  else if float1 ≠ 0 ∧ (get_mantissa float1 < minMantissa ∨
      get_mantissa float1 > maxMantissa ∨
      get_exponent float1 > maxExponent ∨
      get_exponent float1 < minExponent) then Except.error INVALID_FLOAT
  else
    let field := field_code % 65536
    let ty := field_code / 65536
    let is_xrp := field_code = 0
    let is_short := field_code = 4294967295
    if ¬ is_xrp ∧ ¬ is_short ∧ (cur.length ≠ 20 ∨ iss.length ≠ 20) then
      Except.error INVALID_ARGUMENT
    else
      let header : List UInt8 :=
        if is_xrp ∨ is_short then []
        else if field < 16 ∧ ty < 16 then [UInt8.ofNat (ty * 16 + field)]
        else if 16 ≤ field ∧ ty < 16 then [UInt8.ofNat (ty * 16), UInt8.ofNat field]
        else if field < 16 ∧ 16 ≤ ty then [UInt8.ofNat (field * 16), UInt8.ofNat ty]
        else [0, UInt8.ofNat ty, UInt8.ofNat field]
      let man : Nat := (get_mantissa float1).toNat
      let exp : Int := get_exponent float1
      let neg := is_negative float1
      let amount : List UInt8 :=
        if is_xrp then
          let md := xrpNormDown man exp
          xrpAmountBytes neg (xrpNormUp md.1 md.2)
        else if man = 0 then
          [UInt8.ofNat 192, 0, 0, 0, 0, 0, 0, 0]
        else
          iouAmountBytes neg (exp + 97).toNat man
      Except.ok (header ++ amount ++
        (if ¬ is_xrp ∧ ¬ is_short then cur ++ iss else []))

/-- The header-skip step of `float_sto_set` (applyHook.cpp lines
3468-3492): for more than 8 bytes, skip 1, 2 or 3 header bytes
according to the nibbles of the first byte. -/
def stoSetHeaderSkip (b : List UInt8) : Except Int Nat :=
  if b.length > 8 then
    let hi := (b.getD 0 0).toNat / 16
    let lo := (b.getD 0 0).toNat % 16
    if hi = 0 ∧ lo = 0 then
      if b.length < 11 then Except.error NOT_AN_OBJECT else Except.ok 3
    else if hi = 0 ∨ lo = 0 then
      if b.length < 10 then Except.error NOT_AN_OBJECT else Except.ok 2
    else Except.ok 1
  else Except.ok 0

/-- `float_sto_set` (applyHook.cpp lines 3455-3511): skip any header,
parse the 8 bytes as the IOU bit layout (sign bit, biased exponent,
54-bit mantissa) and rebuild the float with `float_set`. -/
def float_sto_set (b : List UInt8) : Int :=
  if b.length < 8 then NOT_AN_OBJECT
  else
    match stoSetHeaderSkip b with
    | Except.error e => e
    | Except.ok h =>
      let b0 := (b.getD h 0).toNat
      let b1 := (b.getD (h + 1) 0).toNat
      let is_neg := b0 / 64 % 2 = 0
      let exponent : Int := ((b0 % 64 * 4 + b1 / 64 : Nat) : Int) - 97
      let mantissa : Nat :=
        b1 % 64 * 2 ^ 48 +
        (b.getD (h + 2) 0).toNat * 2 ^ 40 +
        (b.getD (h + 3) 0).toNat * 2 ^ 32 +
        (b.getD (h + 4) 0).toNat * 2 ^ 24 +
        (b.getD (h + 5) 0).toNat * 2 ^ 16 +
        (b.getD (h + 6) 0).toNat * 2 ^ 8 +
        (b.getD (h + 7) 0).toNat
      if mantissa = 0 then 0
      else float_set exponent ((if is_neg then -1 else 1) * (mantissa : Int))

/-- Header parse step of `get_stobject_length` (applyHook.cpp lines
2310-2332): nibbles of the first byte give common type/field codes;
zero nibbles pull the code from the following byte(s).  Returns
`(type, field, bytes consumed)`. -/
def parseHeader (l : List Nat) : Except Int (Nat × Nat × Nat) :=
  let b0 := l.getD 0 0
  let high := b0 / 16
  let low := b0 % 16
  if 1 ≥ l.length then Except.error (-1)
  else if 0 < high ∧ 0 < low then Except.ok (high, low, 1)
  else if 0 < high then Except.ok (high, l.getD 1 0, 2)
  else if 0 < low then Except.ok (l.getD 1 0, low, 2)
  else if 2 ≥ l.length then Except.error (-1)
  else Except.ok (l.getD 1 0, l.getD 2 0, 3)

/-- Variable-length length decoding of `get_stobject_length`
(applyHook.cpp lines 2352-2372): one, two or three length bytes
according to the first length byte; note the strict `upto > end`
bound in the two-byte branch, transcribed as-is.  Returns
`(payload length, index after the length bytes)`. -/
def vlLength (l : List Nat) (upto : Nat) : Except Int (Nat × Nat) :=
  let len0 := l.getD upto 0
  if upto + 1 ≥ l.length then Except.error (-1)
  else if len0 < 193 then Except.ok (len0, upto + 1)
  else if len0 < 241 then
    if upto + 2 > l.length then Except.error (-1)
    else Except.ok ((len0 - 193) * 256 + l.getD (upto + 1) 0 + 193, upto + 2)
  else
    if upto + 2 ≥ l.length then Except.error (-1)
    else if upto + 3 ≥ l.length then Except.error (-1)
    else Except.ok ((len0 - 241) * 65536 + 12481 + l.getD (upto + 1) 0 * 256 +
      l.getD (upto + 2) 0, upto + 3)

/-- Object/array payload walk of `get_stobject_length` (applyHook.cpp
lines 2398-2424): parse up to 1024 subfields (via `sub`, the parser at
the next recursion depth) until the matching end marker (0xE1 for
objects, 0xF1 for arrays); 1024 iterations without a marker give -5.
Returns the total length of the field including the end marker. -/
def parseObjLoop (sub : List Nat → Except Int (Nat × Nat × Nat)) (ty : Nat)
    (l : List Nat) : Nat → Nat → Except Int Nat
  | _, 0 => Except.error (-5)
  | upto, iter + 1 =>
    match sub (l.drop upto) with
    | Except.error _ => Except.error (-1)
    | Except.ok (sublen, _, _) =>
      if upto + sublen ≥ l.length then Except.error (-1)
      else if (l.getD (upto + sublen) 0 = 225 ∧ ty = 14) ∨
          (l.getD (upto + sublen) 0 = 241 ∧ ty = 15) then
        Except.ok (upto + sublen + 1)
      else parseObjLoop sub ty l (upto + sublen) iter

/-- Body of `get_stobject_length` (applyHook.cpp lines 2296-2427) at one
recursion depth, parameterized by the parser `sub` used for nested
objects/arrays: header, type validation (1..19 minus 9..13), then the
length by type class (VL types 7/8/18/19, fixed-length types
1-5/16/17, amount type 6 whose first payload byte picks 8 or 48 bytes,
object/array types 14/15).  Returns `(total length, type, field)`. -/
def parseFieldAux (sub : List Nat → Except Int (Nat × Nat × Nat))
    (l : List Nat) : Except Int (Nat × Nat × Nat) :=
  match parseHeader l with
  | Except.error e => Except.error e
  | Except.ok (ty, fl, upto) =>
    if upto ≥ l.length then Except.error (-1)
    else if ty < 1 ∨ ty > 19 ∨ (9 ≤ ty ∧ ty ≤ 13) then Except.error (-2)
    else if ty = 7 ∨ ty = 8 ∨ ty = 18 ∨ ty = 19 then
      match vlLength l upto with
      | Except.error e => Except.error e
      | Except.ok (len, upto2) => Except.ok (len + upto2, ty, fl)
    else if ty = 1 ∨ ty = 2 ∨ ty = 3 ∨ ty = 4 ∨ ty = 5 ∨ ty = 16 ∨ ty = 17 then
      Except.ok ((if ty = 1 then 2 else if ty = 2 then 4 else if ty = 3 then 8
        else if ty = 4 then 16 else if ty = 5 then 32 else if ty = 16 then 1
        else 20) + upto, ty, fl)
    else if ty = 6 then
      if upto ≥ l.length then Except.error (-1)
      else Except.ok ((if l.getD upto 0 / 64 = 1 then 8 else 48) + upto, ty, fl)
    else if ty = 14 ∨ ty = 15 then
      match parseObjLoop sub ty l upto 1024 with
      | Except.error e => Except.error e
      | Except.ok t => Except.ok (t, ty, fl)
    else Except.error (-3)

/-- `get_stobject_length` with recursion depth bounded by `gas`: the C
function rejects `recursion_depth > 10` with -4, so depth 0 corresponds
to `gas = 11`.  Defined with `Nat.rec` so that it evaluates by kernel
reduction. -/
def parseField (gas : Nat) : List Nat → Except Int (Nat × Nat × Nat) :=
  Nat.rec (fun _ => Except.error (-4)) (fun _ ih => parseFieldAux ih) gas

/-- Walk of `sto_emplace` (applyHook.cpp lines 2648-2666): scan the
top-level fields of `src`; replace the field whose code equals
`field_id`, or inject `fld` before the first field with a larger code,
or append at the end; a parse failure is `PARSE_ERROR`.  Exhausting the
1024-iteration budget injects at the end (the C loop leaves
`inject_start = inject_end = end`). -/
def emplaceLoop (fld : List Nat) (field_id : Nat) (src : List Nat) :
    Nat → Nat → Except Int (List Nat)
  | _, 0 => Except.ok (src ++ fld)
  | upto, fuel + 1 =>
    if upto < src.length then
      match parseField 11 (src.drop upto) with
      | Except.error _ => Except.error PARSE_ERROR
      | Except.ok (len, ty, fl) =>
        if ty * 65536 + fl = field_id then
          Except.ok (src.take upto ++ fld ++ src.drop (upto + len))
        else if field_id < ty * 65536 + fl then
          Except.ok (src.take upto ++ fld ++ src.drop upto)
        else emplaceLoop fld field_id src (upto + len) fuel
    else Except.ok (src ++ fld)

/-- `sto_emplace` (applyHook.cpp lines 2606-2700) as a function on byte
lists: the guest-buffer plumbing (write/read pointer bounds, the
`write_len < sread_len + fread_len` TOO_SMALL check) is elided; the
intrinsic size limits and the field walk are kept. -/
def sto_emplace (src fld : List Nat) (field_id : Nat) : Except Int (List Nat) :=
  if src.length > 16384 then Except.error TOO_BIG
  else if fld.length > 4096 then Except.error TOO_BIG
  else emplaceLoop fld field_id src 0 1024

/-- Walk of `sto_erase` (applyHook.cpp lines 2739-2755): scan all
top-level fields of `src`, remembering the interval of the last
field whose code equals `field_id`. -/
def eraseLoop (field_id : Nat) (src : List Nat) :
    Nat → Option (Nat × Nat) → Nat → Except Int (Option (Nat × Nat))
  | _, found, 0 => Except.ok found
  | upto, found, fuel + 1 =>
    if upto < src.length then
      match parseField 11 (src.drop upto) with
      | Except.error _ => Except.error PARSE_ERROR
      | Except.ok (len, ty, fl) =>
        eraseLoop field_id src (upto + len)
          (if ty * 65536 + fl = field_id then some (upto, upto + len) else found)
          fuel
    else Except.ok found

/-- `sto_erase` (applyHook.cpp lines 2706-2780) as a function on byte
lists: buffer plumbing (write bounds, `write_len < read_len`) elided;
the null `erase_start`/`erase_end` pointers of the not-found case fail
the pointer-range test, giving `DOESNT_EXIST`. -/
def sto_erase (src : List Nat) (field_id : Nat) : Except Int (List Nat) :=
  if src.length > 16384 then Except.error TOO_BIG
  else
    match eraseLoop field_id src 0 none 1024 with
    | Except.error e => Except.error e
    | Except.ok none => Except.error DOESNT_EXIST
    | Except.ok (some (a, b)) => Except.ok (src.take a ++ src.drop b)

/-- Concatenation of a list of (bytes, type, field) chunks. -/
def chunksJoin : List (List Nat × Nat × Nat) → List Nat
  | [] => []
  | c :: cs => c.1 ++ chunksJoin cs

/-- Interval of the last chunk whose field code equals `field_id`,
mirroring the accumulator of `eraseLoop`. -/
def lastMatch (field_id : Nat) :
    List (List Nat × Nat × Nat) → Nat → Option (Nat × Nat) → Option (Nat × Nat)
  | [], _, found => found
  | c :: cs, upto, found =>
    lastMatch field_id cs (upto + c.1.length)
      (if c.2.1 * 65536 + c.2.2 = field_id then some (upto, upto + c.1.length)
       else found)

/-! ## Theorems -/

theorem ofU64_small {n : Nat} (h : n < 2 ^ 63) : ofU64 n = n := by
  simp only [ofU64]
  rw [if_pos h]

theorem set_mantissa_zero {mm : Int} (h2 : mm ≤ maxMantissa) :
    set_mantissa 0 mm = mm := by
  simp only [set_mantissa, get_mantissa, MANTISSA_OVERSIZED, maxMantissa] at *
  split_ifs <;> omega

theorem set_exponent_build {mm e : Int} (h1 : 1 ≤ mm) (h2 : mm ≤ maxMantissa)
    (he1 : minExponent ≤ e) (he2 : e ≤ maxExponent) :
    set_exponent mm e = mm + (e + 97) * 2 ^ 54 := by
  simp only [set_exponent, u64, ofU64, EXPONENT_OVERSIZED, EXPONENT_UNDERSIZED,
    minExponent, maxExponent, maxMantissa] at *
  split_ifs <;> omega

theorem set_sign_build {mm e : Int} (b : Bool) (h1 : 1 ≤ mm) (h2 : mm ≤ maxMantissa)
    (he1 : minExponent ≤ e) (he2 : e ≤ maxExponent) :
    set_sign (mm + (e + 97) * 2 ^ 54) b =
      mm + (e + 97) * 2 ^ 54 + (if b then 0 else 2 ^ 62) := by
  simp only [set_sign, is_negative, invert_sign, u64, ofU64,
    minExponent, maxExponent, maxMantissa] at *
  cases b <;> simp <;> split_ifs <;> omega

theorem make_float_inv {m e : Int} (hm0 : m ≠ 0)
    (hml : -maxMantissa ≤ m) (hmu : m ≤ maxMantissa)
    (he1 : minExponent ≤ e) (he2 : e ≤ maxExponent) :
    make_float m e = |m| + (e + 97) * 2 ^ 54 + (if m < 0 then 0 else 2 ^ 62) := by
  have hstep : ∀ mm : Int, 1 ≤ mm → mm ≤ maxMantissa → ∀ b : Bool,
      set_sign (set_exponent (set_mantissa 0 mm) e) b =
        mm + (e + 97) * 2 ^ 54 + (if b then 0 else 2 ^ 62) := by
    intro mm hm1 hm2 b
    rw [set_mantissa_zero hm2, set_exponent_build hm1 hm2 he1 he2,
      set_sign_build b hm1 hm2 he1 he2]
  simp only [make_float, MANTISSA_OVERSIZED, EXPONENT_OVERSIZED,
    EXPONENT_UNDERSIZED, maxMantissa, minExponent, maxExponent] at *
  split_ifs with hc1 hc2 hc3 hc4 <;> try omega
  case pos hneg =>
    rw [show m * -1 = -m by ring, show decide (m < 0) = true by simpa using hneg]
    have h := hstep (-m) (by omega) (by omega) true
    simp only [if_pos] at h
    rw [h, abs_of_neg hneg]
  case neg hneg =>
    rw [show decide (m < 0) = false by simpa using hneg]
    have h := hstep m (by omega) (by omega) false
    simp only [Bool.false_eq_true, if_false] at h
    rw [h, abs_of_nonneg (by omega)]

theorem normUp_spec :
    ∀ m e m1 e1 : Int, normUp m e = some (m1, e1) → 1 ≤ m →
      (minMantissa ≤ m1 ∧ m1 ≤ maxMantissa) ∨ (m1 = m ∧ minMantissa ≤ m) := by
  intro m e
  induction m, e using normUp.induct with
  | case1 m e hlt hnone =>
    intro m1 e1 hsome
    rw [normUp, if_pos hlt, if_pos hnone] at hsome
    exact absurd hsome (by simp)
  | case2 m e hlt hrec ih =>
    intro m1 e1 hsome hm1
    rw [normUp, if_pos hlt, if_neg hrec] at hsome
    have h10 : (1 : Int) ≤ m * 10 := by omega
    rcases ih m1 e1 hsome h10 with h | h
    · exact Or.inl h
    · left
      constructor
      · omega
      · simp only [minMantissa, maxMantissa] at *
        omega
  | case3 m e hge =>
    intro m1 e1 hsome hm1
    rw [normUp, if_neg hge] at hsome
    simp only [Option.some.injEq, Prod.mk.injEq] at hsome
    right
    exact ⟨hsome.1.symm, by omega⟩

theorem normDown_spec :
    ∀ m e m2 e2 : Int, normDown m e = some (m2, e2) → minMantissa ≤ m →
      minMantissa ≤ m2 ∧ m2 ≤ maxMantissa := by
  intro m e
  induction m, e using normDown.induct with
  | case1 m e hgt hnone =>
    intro m2 e2 hsome
    rw [normDown, if_pos hgt, if_pos hnone] at hsome
    exact absurd hsome (by simp)
  | case2 m e hgt hrec ih =>
    intro m2 e2 hsome hm1
    rw [normDown, if_pos hgt, if_neg hrec] at hsome
    refine ih m2 e2 hsome ?_
    simp only [minMantissa, maxMantissa] at *
    omega
  | case3 m e hle =>
    intro m2 e2 hsome hm1
    rw [normDown, if_neg hle] at hsome
    simp only [Option.some.injEq, Prod.mk.injEq] at hsome
    constructor
    · omega
    · omega

/-- A value built by `make_float` on a normalized mantissa is strictly
positive (hence not an error code and not the zero encoding). -/
theorem make_float_pos {m e : Int} (hm0 : m ≠ 0)
    (hml : -maxMantissa ≤ m) (hmu : m ≤ maxMantissa)
    (he1 : minExponent ≤ e) (he2 : e ≤ maxExponent) :
    0 < make_float m e := by
  rw [make_float_inv hm0 hml hmu he1 he2]
  have : 0 < |m| := abs_pos.mpr hm0
  simp only [minExponent, maxExponent] at *
  split_ifs <;> omega


theorem get_of_built (m2 e2 : Int) (h1 : minMantissa ≤ m2) (h2 : m2 ≤ maxMantissa)
    (he1 : minExponent ≤ e2) (he2 : e2 ≤ maxExponent) (s : Int) (hs : s = 1 ∨ s = -1) :
    get_mantissa (make_float (s * m2) e2) = m2 ∧
    get_exponent (make_float (s * m2) e2) = e2 := by
  have hm2pos : 0 < m2 := by simp only [minMantissa] at h1; omega
  have habs : |s * m2| = m2 := by
    rcases hs with rfl | rfl
    · rw [one_mul, abs_of_pos hm2pos]
    · rw [neg_one_mul, abs_neg, abs_of_pos hm2pos]
  have hne : s * m2 ≠ 0 := by rcases hs with rfl | rfl <;> omega
  have hl : -maxMantissa ≤ s * m2 := by rcases hs with rfl | rfl <;> omega
  have hu : s * m2 ≤ maxMantissa := by rcases hs with rfl | rfl <;> omega
  rw [make_float_inv hne hl hu he1 he2, habs]
  simp only [get_mantissa, get_exponent, minMantissa, maxMantissa,
    minExponent, maxExponent, INVALID_FLOAT] at *
  split_ifs <;> constructor <;> omega

/-- C1-claim body for the float library invariant: any non-zero, non-error
value returned by `float_set` carries a mantissa in `[10^15, 10^16 - 1]`
and an exponent in `[-96, 80]`. -/
theorem float_set_canonical (exp mantissa : Int)
    (h0 : float_set exp mantissa ≠ 0)
    (h1 : float_set exp mantissa ≠ INVALID_FLOAT)
    (h3 : float_set exp mantissa ≠ EXPONENT_OVERSIZED)
    (h4 : float_set exp mantissa ≠ EXPONENT_UNDERSIZED) :
    minMantissa ≤ get_mantissa (float_set exp mantissa) ∧
    get_mantissa (float_set exp mantissa) ≤ maxMantissa ∧
    minExponent ≤ get_exponent (float_set exp mantissa) ∧
    get_exponent (float_set exp mantissa) ≤ maxExponent := by
  by_cases hz : mantissa = 0
  · exact absurd (by rw [float_set, if_pos hz]) h0
  have hfs : float_set exp mantissa =
      (match normUp (if mantissa < 0 then mantissa * -1 else mantissa) exp with
       | none => INVALID_FLOAT
       | some (m1, e1) =>
         match normDown m1 e1 with
         | none => INVALID_FLOAT
         | some (m2, e2) =>
           make_float ((if mantissa < 0 then -1 else 1) * m2) e2) := by
    rw [float_set, if_neg hz]
  have hmm1 : 1 ≤ (if mantissa < 0 then mantissa * -1 else mantissa) := by
    split_ifs <;> omega
  rcases hnu : normUp (if mantissa < 0 then mantissa * -1 else mantissa) exp with
    _ | ⟨m1, e1⟩
  · rw [hnu] at hfs
    exact absurd hfs h1
  rw [hnu] at hfs
  dsimp only at hfs
  rcases hnd : normDown m1 e1 with _ | ⟨m2, e2⟩
  · rw [hnd] at hfs
    exact absurd hfs h1
  rw [hnd] at hfs
  dsimp only at hfs
  have hm1 : minMantissa ≤ m1 := by
    rcases normUp_spec _ _ _ _ hnu hmm1 with h | h
    · exact h.1
    · omega
  have hm2 := normDown_spec _ _ _ _ hnd hm1
  have hs : (if mantissa < 0 then (-1 : Int) else 1) = 1 ∨
      (if mantissa < 0 then (-1 : Int) else 1) = -1 := by
    split_ifs <;> simp
  by_cases heo : e2 > maxExponent
  · have : make_float ((if mantissa < 0 then (-1:Int) else 1) * m2) e2 =
        EXPONENT_OVERSIZED := by
      rw [make_float]
      have hne : (if mantissa < 0 then (-1:Int) else 1) * m2 ≠ 0 := by
        rcases hs with h | h <;> rw [h] <;> simp only [minMantissa] at hm2 <;> omega
      have hnb : ¬ ((if mantissa < 0 then (-1:Int) else 1) * m2 > maxMantissa) := by
        rcases hs with h | h <;> rw [h] <;>
          simp only [minMantissa, maxMantissa] at * <;> omega
      rw [if_neg hne, if_neg hnb, if_pos heo]
    rw [this] at hfs
    exact absurd hfs h3
  by_cases heu : e2 < minExponent
  · have : make_float ((if mantissa < 0 then (-1:Int) else 1) * m2) e2 =
        EXPONENT_UNDERSIZED := by
      rw [make_float]
      have hne : (if mantissa < 0 then (-1:Int) else 1) * m2 ≠ 0 := by
        rcases hs with h | h <;> rw [h] <;> simp only [minMantissa] at hm2 <;> omega
      have hnb : ¬ ((if mantissa < 0 then (-1:Int) else 1) * m2 > maxMantissa) := by
        rcases hs with h | h <;> rw [h] <;>
          simp only [minMantissa, maxMantissa] at * <;> omega
      rw [if_neg hne, if_neg hnb, if_neg (by omega), if_pos heu]
    rw [this] at hfs
    exact absurd hfs h4
  have := get_of_built m2 e2 hm2.1 hm2.2 (by omega) (by omega) _ hs
  rw [hfs, this.1, this.2]
  exact ⟨hm2.1, hm2.2, by omega, by omega⟩


/-- **C5** (amended): every value produced by the normalizing
constructor `float_set` / `make_float` that is neither an error code nor
the special zero encoding has its mantissa in `[10^15, 10^16 - 1]` and
its exponent in `[-96, 80]`.  The invariant does not extend to every
float operation: `float_divide` assembles its result as
`set_mantissa(set_exponent(...))` without a final range check and can
emit a non-error encoding with exponent `-97` (see the
counterexample). -/
theorem C5_float_range (exp mantissa : Int)
    (h0 : float_set exp mantissa ≠ 0)
    (h1 : float_set exp mantissa ≠ INVALID_FLOAT)
    (_h2 : float_set exp mantissa ≠ MANTISSA_OVERSIZED)
    (h3 : float_set exp mantissa ≠ EXPONENT_OVERSIZED)
    (h4 : float_set exp mantissa ≠ EXPONENT_UNDERSIZED) :
    minMantissa ≤ get_mantissa (float_set exp mantissa) ∧
    get_mantissa (float_set exp mantissa) ≤ maxMantissa ∧
    minExponent ≤ get_exponent (float_set exp mantissa) ∧
    get_exponent (float_set exp mantissa) ≤ maxExponent :=
  float_set_canonical exp mantissa h0 h1 h3 h4

theorem C5_float_range_witness :
    float_set (-6) 1000000000000000 ≠ 0 ∧
    (minMantissa ≤ get_mantissa (float_set (-6) 1000000000000000) ∧
     get_mantissa (float_set (-6) 1000000000000000) ≤ maxMantissa ∧
     minExponent ≤ get_exponent (float_set (-6) 1000000000000000) ∧
     get_exponent (float_set (-6) 1000000000000000) ≤ maxExponent) := by
  have hval : float_set (-6) 1000000000000000 = 6251996282790248448 := by
    rw [float_set]
    norm_num [minMantissa, maxMantissa, minExponent, maxExponent]
    rw [normUp]
    norm_num [minMantissa, minExponent]
    rw [normDown]
    norm_num [maxMantissa, maxExponent]
    rw [make_float]
    decide
  refine ⟨by rw [hval]; norm_num,
    C5_float_range (-6) 1000000000000000 ?_ ?_ ?_ ?_ ?_⟩ <;>
    rw [hval] <;>
    norm_num [INVALID_FLOAT, MANTISSA_OVERSIZED, EXPONENT_OVERSIZED,
      EXPONENT_UNDERSIZED]

set_option maxHeartbeats 1000000 in
theorem divSubtract_one : ∀ m2 i : Nat, divSubtract m2 1 i = (1, i) := by
  intro m2 i
  rw [divSubtract, if_neg (by omega)]

set_option maxHeartbeats 1000000 in
theorem divSubtract_first : divSubtract 1000000000000000 1000000000000001 0 = (1, 1) := by
  rw [divSubtract, if_pos (by norm_num)]
  norm_num [divSubtract_one]

set_option maxHeartbeats 1000000 in
theorem divNormDown_arg1 : divNormDown 1000000000000001 (-96) =
    Except.ok (1000000000000001, -96) := by
  rw [divNormDown, if_neg (by norm_num [maxMantissa])]

set_option maxHeartbeats 1000000 in
theorem divLoop_eval : divLoop 1000000000000001 1000000000000000 0 (-176) =
    (1000000000000000, -191) := by
  rw [divLoop, if_neg (by norm_num)]
  norm_num [divSubtract_first, divSubtract_one]
  repeat (rw [divLoop, if_neg (by norm_num)]; norm_num [divSubtract_one])

set_option maxHeartbeats 1000000 in
theorem divNormUp_arg1 : divNormUp 1000000000000001 (-96) =
    Except.ok (1000000000000001, -96) := by
  rw [divNormUp, if_neg (by norm_num [minMantissa])]

set_option maxHeartbeats 1000000 in
theorem divShrink_arg2 : divShrinkMan2 1000000000000001 1000000000000000 80 =
    (1000000000000000, 80) := by
  rw [divShrinkMan2, if_neg (by omega)]

set_option maxHeartbeats 1000000 in
theorem divGrow_arg2 : divGrowMan2 1000000000000001 1000000000000000 80 =
    (1000000000000000, 80) := by
  rw [divGrowMan2, if_pos (by omega), if_pos (by omega)]

set_option maxHeartbeats 1000000 in
theorem divNormUp_res : divNormUp 1000000000000000 (-191) =
    Except.ok (1000000000000000, -191) := by
  rw [divNormUp, if_neg (by norm_num [minMantissa])]

set_option maxHeartbeats 1000000 in
theorem divNormDown_res : divNormDown 1000000000000000 (-191) =
    Except.ok (1000000000000000, -191) := by
  rw [divNormDown, if_neg (by norm_num [maxMantissa])]

set_option maxHeartbeats 1000000 in
theorem c5div_man1 : (get_mantissa (4630700416936869889 : Int)).toNat =
    1000000000000001 := by decide

set_option maxHeartbeats 1000000 in
theorem c5div_exp1 : get_exponent (4630700416936869889 : Int) = -96 := by
  norm_num [get_exponent]

set_option maxHeartbeats 1000000 in
theorem c5div_man2 : (get_mantissa (7801234554605699072 : Int)).toNat =
    1000000000000000 := by decide

set_option maxHeartbeats 1000000 in
theorem c5div_exp2 : get_exponent (7801234554605699072 : Int) = 80 := by
  norm_num [get_exponent]

set_option maxHeartbeats 1000000 in
theorem c5div_f1_nonneg : ¬ ((4630700416936869889 : Int) < 0) := by norm_num

set_option maxHeartbeats 1000000 in
theorem c5div_f1_valid : ¬ ((4630700416936869889 : Int) ≠ 0 ∧
    (get_mantissa 4630700416936869889 < minMantissa ∨
     get_mantissa 4630700416936869889 > maxMantissa ∨
     get_exponent 4630700416936869889 > maxExponent ∨
     get_exponent 4630700416936869889 < minExponent)) := by decide

set_option maxHeartbeats 1000000 in
theorem c5div_f2_nonneg : ¬ ((7801234554605699072 : Int) < 0) := by norm_num

set_option maxHeartbeats 1000000 in
theorem c5div_f2_valid : ¬ ((7801234554605699072 : Int) ≠ 0 ∧
    (get_mantissa 7801234554605699072 < minMantissa ∨
     get_mantissa 7801234554605699072 > maxMantissa ∨
     get_exponent 7801234554605699072 > maxExponent ∨
     get_exponent 7801234554605699072 < minExponent)) := by decide

set_option maxHeartbeats 1000000 in
theorem c5div_f2_nonzero : ¬ ((7801234554605699072 : Int) = 0) := by norm_num

set_option maxHeartbeats 1000000 in
theorem c5div_f1_nonzero : ¬ ((4630700416936869889 : Int) = 0) := by norm_num

set_option maxHeartbeats 1000000 in
theorem c5div_f1_sign : is_negative (4630700416936869889 : Int) = false := by decide

set_option maxHeartbeats 1000000 in
theorem c5div_f2_sign : is_negative (7801234554605699072 : Int) = false := by decide

set_option maxHeartbeats 1000000 in
theorem c5div_final_build : set_mantissa (set_exponent (set_sign 0 false) (-191))
    ((1000000000000000 : Nat) : Int) = 1000000000009995 := by decide

theorem float_divide_eval (f1 f2 : Int)
    (n1 n2 m1a man1 p1 q1 d1 m3a man3 : Nat)
    (ee1 ee2 e1a exp1 p2 q2 d2 e3a exp3 : Int)
    (h1 : ¬ f1 < 0)
    (h2 : ¬ (f1 ≠ 0 ∧ (get_mantissa f1 < minMantissa ∨
      get_mantissa f1 > maxMantissa ∨ get_exponent f1 > maxExponent ∨
      get_exponent f1 < minExponent)))
    (h3 : ¬ f2 < 0)
    (h4 : ¬ (f2 ≠ 0 ∧ (get_mantissa f2 < minMantissa ∨
      get_mantissa f2 > maxMantissa ∨ get_exponent f2 > maxExponent ∨
      get_exponent f2 < minExponent)))
    (h5 : ¬ f2 = 0) (h6 : ¬ f1 = 0)
    (hm1 : (get_mantissa f1).toNat = n1) (he1 : get_exponent f1 = ee1)
    (hm2 : (get_mantissa f2).toNat = n2) (he2 : get_exponent f2 = ee2)
    (hA : divNormDown n1 ee1 = Except.ok (m1a, e1a))
    (hB : divNormUp m1a e1a = Except.ok (man1, exp1))
    (hC : divShrinkMan2 man1 n2 ee2 = (p1, p2))
    (hp1 : ¬ p1 = 0)
    (hD : divGrowMan2 man1 p1 p2 = (q1, q2))
    (hE : divLoop man1 q1 0 (exp1 - q2) = (d1, d2))
    (hF : divNormUp d1 d2 = Except.ok (m3a, e3a))
    (hG : divNormDown m3a e3a = Except.ok (man3, exp3)) :
    float_divide f1 f2 =
      set_mantissa (set_exponent (set_sign 0
        (!((is_negative f1 && is_negative f2) ||
           (!is_negative f1 && !is_negative f2)))) exp3) (man3 : Int) := by
  unfold float_divide
  rw [if_neg h1, if_neg h2, if_neg h3, if_neg h4, if_neg h5, if_neg h6]
  dsimp only
  rw [hm1, he1, hA]
  dsimp only
  rw [hB]
  dsimp only
  rw [hm2, he2, hC]
  dsimp only
  rw [if_neg hp1, hD]
  dsimp only
  rw [hE]
  dsimp only
  rw [hF]
  dsimp only
  rw [hG]

set_option maxHeartbeats 2000000 in
theorem c5div_value : float_divide 4630700416936869889 7801234554605699072 =
    1000000000009995 := by
  have h := float_divide_eval 4630700416936869889 7801234554605699072
    1000000000000001 1000000000000000 1000000000000001 1000000000000001
    1000000000000000 1000000000000000 1000000000000000 1000000000000000
    1000000000000000
    (-96) 80 (-96) (-96) 80 80 (-191) (-191) (-191)
    c5div_f1_nonneg c5div_f1_valid c5div_f2_nonneg c5div_f2_valid c5div_f2_nonzero c5div_f1_nonzero c5div_man1 c5div_exp1 c5div_man2 c5div_exp2 divNormDown_arg1 divNormUp_arg1 divShrink_arg2
    (by norm_num) divGrow_arg2
    (by rw [show (-96 : Int) - 80 = -176 from by norm_num]; exact divLoop_eval)
    divNormUp_res divNormDown_res
  rw [h, c5div_f1_sign, c5div_f2_sign]
  rw [show (!(false && false || !false && !false)) = false from rfl]
  exact c5div_final_build


/-- **C5 counterexample**: the claim ranges over every float operation,
but `float_divide` violates the invariant.  Dividing the valid float
`4630700416936869889` (mantissa `10^15 + 1`, exponent `-96`, positive)
by the valid float `7801234554605699072` (mantissa `10^15`, exponent
`80`, positive) yields `1000000000009995`: a positive, nonzero,
non-error encoding whose exponent field decodes to `-97 < -96`.  The
quotient mantissa is already normalized, so neither normalization loop
runs and the out-of-range exponent reaches `set_exponent`, whose
`EXPONENT_UNDERSIZED` error is then absorbed arithmetically by
`set_mantissa` (applyHook.cpp lines 3595-3598). -/
theorem C5_counterexample :
    (minMantissa ≤ get_mantissa 4630700416936869889 ∧
     get_mantissa 4630700416936869889 ≤ maxMantissa ∧
     minExponent ≤ get_exponent 4630700416936869889 ∧
     get_exponent 4630700416936869889 ≤ maxExponent) ∧
    (minMantissa ≤ get_mantissa 7801234554605699072 ∧
     get_mantissa 7801234554605699072 ≤ maxMantissa ∧
     minExponent ≤ get_exponent 7801234554605699072 ∧
     get_exponent 7801234554605699072 ≤ maxExponent) ∧
    float_divide 4630700416936869889 7801234554605699072 =
      1000000000009995 ∧
    (0 : Int) < 1000000000009995 ∧
    get_exponent 1000000000009995 < minExponent :=
  ⟨⟨by decide, by decide, by decide, by decide⟩,
   ⟨by decide, by decide, by decide, by decide⟩,
   c5div_value, by decide, by decide⟩



theorem gRun_count (id maxitr : Nat) :
    ∀ (k : Nat) (st : GuardState), st.guard_map id + k ≤ maxitr →
      (gRun id maxitr k st).1.guard_map id = st.guard_map id + k ∧
      (gRun id maxitr k st).1.exitType = st.exitType ∧
      (gRun id maxitr k st).1.exitCode = st.exitCode ∧
      (gRun id maxitr k st).2 = List.replicate k 1 := by
  intro k
  induction k with
  | zero => intro st _; simp [gRun]
  | succ k ih =>
    intro st h
    have hle : ¬ (st.guard_map id + 1 > maxitr) := by omega
    have hstep : _g id maxitr st =
        (1, { st with guard_map :=
          fun j => if j = id then st.guard_map id + 1 else st.guard_map j }) := by
      rw [_g]
      simp only [if_neg hle]
    simp only [gRun, hstep]
    have := ih { st with guard_map :=
        fun j => if j = id then st.guard_map id + 1 else st.guard_map j }
      (by simp; omega)
    simp only [eq_self_iff_true, if_true] at this
    refine ⟨by rw [this.1]; omega, this.2.1, this.2.2.1, by rw [this.2.2.2]; rfl⟩

/-- **C4**: for every guard id and bound `n`, `n` sequential calls of
`_g(id, n)` (starting from a state in which the guard id is fresh) each
return `1`, and the `(n+1)`-th call sets the exit type to `ROLLBACK`
with exit code `GUARD_VIOLATION` and returns `RC_ROLLBACK`. -/
theorem C4_guard (id n : Nat) (st0 : GuardState) (hfresh : st0.guard_map id = 0) :
    (gRun id n n st0).2 = List.replicate n 1 ∧
    (_g id n (gRun id n n st0).1).1 = RC_ROLLBACK ∧
    (_g id n (gRun id n n st0).1).2.exitType = ExitType.ROLLBACK ∧
    (_g id n (gRun id n n st0).1).2.exitCode = GUARD_VIOLATION := by
  have hrun := gRun_count id n n st0 (by omega)
  have hcount : (gRun id n n st0).1.guard_map id = n := by
    rw [hrun.1, hfresh]
    omega
  have hgt : (gRun id n n st0).1.guard_map id + 1 > n := by omega
  have hstep : _g id n (gRun id n n st0).1 =
      (RC_ROLLBACK,
        { (gRun id n n st0).1 with
            guard_map := fun j => if j = id then (gRun id n n st0).1.guard_map id + 1
                          else (gRun id n n st0).1.guard_map j,
            exitType := ExitType.ROLLBACK,
            exitCode := GUARD_VIOLATION }) := by
    rw [_g]
    simp only [if_pos hgt]
  rw [hstep]
  exact ⟨hrun.2.2.2, rfl, rfl, rfl⟩

theorem C4_guard_witness :
    (fun st0 : GuardState =>
      (gRun 42 3 3 st0).2 = List.replicate 3 1 ∧
      (_g 42 3 (gRun 42 3 3 st0).1).1 = RC_ROLLBACK ∧
      (_g 42 3 (gRun 42 3 3 st0).1).2.exitType = ExitType.ROLLBACK ∧
      (_g 42 3 (gRun 42 3 3 st0).1).2.exitCode = GUARD_VIOLATION)
      { guard_map := fun _ => 0, exitType := ExitType.ACCEPT, exitCode := 0 } :=
  C4_guard 42 3 _ rfl


/-- **C10**: `hook_account` ignores its guest-supplied length argument:
whenever `write_ptr + 20` is within guest memory it writes exactly the
20 account-id bytes and returns 20, for every value of `ptr_len`
(including values smaller than 20). -/
theorem C10_hook_account_ignores_len (account : List UInt8) (m : Memory)
    (write_ptr ptr_len : Nat) (hacc : account.length = 20)
    (hb : write_ptr + 20 ≤ m.length) :
    (hook_account account m write_ptr ptr_len).1 = 20 ∧
    (∀ i, write_ptr ≤ i ∧ i < write_ptr + 20 →
      (hook_account account m write_ptr ptr_len).2.bytes i =
        account.getD (i - write_ptr) 0) ∧
    (∀ i, i < write_ptr ∨ write_ptr + 20 ≤ i →
      (hook_account account m write_ptr ptr_len).2.bytes i = m.bytes i) := by
  have hnb : NOT_IN_BOUNDS write_ptr 20 m.length = false := by
    simp only [NOT_IN_BOUNDS, Bool.or_eq_false_iff, decide_eq_false_iff_not]
    omega
  have hmin : min account.length 20 = 20 := by rw [hacc]; simp
  have hno : ¬ (write_ptr + 20 > m.length) := by omega
  simp only [hook_account, hnb, Bool.false_eq_true, if_false,
    writeWasmMemory, hmin, if_neg hno]
  refine ⟨rfl, ?_, ?_⟩
  · intro i hi
    simp only [if_pos hi]
  · intro i hi
    have : ¬ (write_ptr ≤ i ∧ i < write_ptr + 20) := by omega
    simp only [if_neg this]

theorem C10_hook_account_ignores_len_witness :
    (List.replicate 20 (1 : UInt8)).length = 20 ∧
    (4 : Nat) + 20 ≤ 32 ∧
    ((hook_account (List.replicate 20 1) ⟨fun _ => 0, 32⟩ 4 3).1 = 20 ∧
     (∀ i, 4 ≤ i ∧ i < 4 + 20 →
       (hook_account (List.replicate 20 1) ⟨fun _ => 0, 32⟩ 4 3).2.bytes i =
         (List.replicate 20 (1 : UInt8)).getD (i - 4) 0) ∧
     (∀ i, i < 4 ∨ 4 + 20 ≤ i →
       (hook_account (List.replicate 20 1) ⟨fun _ => 0, 32⟩ 4 3).2.bytes i =
         (⟨fun _ => 0, 32⟩ : Memory).bytes i)) :=
  ⟨by decide, by omega,
    C10_hook_account_ignores_len (List.replicate 20 1) ⟨fun _ => 0, 32⟩ 4 3
      (by decide) (by decide)⟩

/-- **C1 counterexample**: `hook_account` called with `write_ptr = 4`
and guest length `2^32 - 1` on a 32-byte memory: the supplied
`ptr + len` exceeds the memory size, yet the call returns `20` (not
`OUT_OF_BOUNDS`) and writes 20 bytes of the account id into guest
memory, because the bounds check uses a fixed length of 20. -/
theorem C1_counterexample :
    (4 : Nat) + 4294967295 > 32 ∧
    (hook_account (List.replicate 20 1) ⟨fun _ => 0, 32⟩ 4 4294967295).1 = 20 ∧
    (hook_account (List.replicate 20 1) ⟨fun _ => 0, 32⟩ 4 4294967295).1 ≠
      OUT_OF_BOUNDS ∧
    (hook_account (List.replicate 20 1) ⟨fun _ => 0, 32⟩ 4 4294967295).2.bytes 4 ≠
      (⟨fun _ => 0, 32⟩ : Memory).bytes 4 := by
  refine ⟨by omega, ?_, ?_, ?_⟩ <;> decide


theorem readBytes_length (m : Memory) (p n : Nat) :
    (readBytes m p n).length = n := by
  simp [readBytes]

theorem NOT_IN_BOUNDS_false {p l L : Nat} (h : p + l ≤ L) :
    NOT_IN_BOUNDS p l L = false := by
  simp only [NOT_IN_BOUNDS, Bool.or_eq_false_iff, decide_eq_false_iff_not]
  omega

theorem make_state_key_some {b : List UInt8} (h1 : 1 ≤ b.length)
    (h2 : b.length ≤ 32) :
    make_state_key b = some (List.replicate (32 - b.length) 0 ++ b) := by
  rw [make_state_key, if_neg]
  simp only [Bool.or_eq_true, decide_eq_true_eq, not_or]
  omega

/-- **C2 counterexample**: delete key `[7]` (one `state_set` with a
zero-length value), then read it back in the same invocation: the read
returns `0` (the staged empty value served from the cache), not
`DOESNT_EXIST` as the claim states. -/
theorem C2_counterexample :
    (state_read ⟨some 128, fun _ _ => none, List.replicate 20 9⟩
        ⟨fun _ => 7, 64⟩
        (state_set ⟨some 128, fun _ _ => none, List.replicate 20 9⟩
          ⟨fun _ => 7, 64⟩ [] 0 0 10 1).2 0 0 10 1).1 = 0 ∧
    (state_read ⟨some 128, fun _ _ => none, List.replicate 20 9⟩
        ⟨fun _ => 7, 64⟩
        (state_set ⟨some 128, fun _ _ => none, List.replicate 20 9⟩
          ⟨fun _ => 7, 64⟩ [] 0 0 10 1).2 0 0 10 1).1 ≠ DOESNT_EXIST := by
  refine ⟨?_, ?_⟩ <;> decide

/-- **C2 amended**: `state_set` with a zero-length value stages an empty
dirty cache entry, and a subsequent read of the same key within the same
invocation returns `0` — the empty value served from the cache — rather
than `DOESNT_EXIST` (the entry reads as non-existent only after the
commit step deletes it from the ledger). -/
theorem C2_amended (env : StateEnv) (m : Memory)
    (cache : List (List UInt8 × Bool × List UInt8))
    (wptr wlen kptr klen maxSize : Nat)
    (hk1 : 1 ≤ klen) (hk2 : klen ≤ 32)
    (hb1 : kptr + 32 ≤ m.length) (hb2 : kptr + klen ≤ m.length)
    (hb3 : wptr + wlen ≤ m.length)
    (henv : env.hookStateDataMaxSize = some maxSize) :
    (state_set env m cache 0 0 kptr klen).1 = 0 ∧
    (state_read env m (state_set env m cache 0 0 kptr klen).2
        wptr wlen kptr klen).1 = 0 ∧
    (state_read env m (state_set env m cache 0 0 kptr klen).2
        wptr wlen kptr klen).1 ≠ DOESNT_EXIST := by
  have hkey := make_state_key_some
    (b := readBytes m kptr klen) (by rw [readBytes_length]; omega)
    (by rw [readBytes_length]; omega)
  have h0 : readBytes m 0 0 = [] := by simp [readBytes]
  have hset : state_set env m cache 0 0 kptr klen =
      ((0 : Int), cacheSet cache
        (List.replicate (32 - (readBytes m kptr klen).length) 0 ++
          readBytes m kptr klen) (true, [])) := by
    rw [state_set, if_neg (by rw [NOT_IN_BOUNDS_false (by omega)]; simp),
      if_neg (by simp), if_neg (by omega), if_neg (by omega), henv]
    dsimp only
    rw [if_neg (by omega : ¬ (0 > maxSize)), hkey]
    dsimp only [Option.getD_some]
    rw [h0]
    norm_num
  rw [hset]
  have hlookup : cacheLookup (cacheSet cache
      (List.replicate (32 - (readBytes m kptr klen).length) 0 ++
        readBytes m kptr klen) (true, []))
      (List.replicate (32 - (readBytes m kptr klen).length) 0 ++
        readBytes m kptr klen) = some (true, []) := by
    rw [cacheSet, cacheLookup, if_pos rfl]
  have hread : (state_read env m (cacheSet cache
      (List.replicate (32 - (readBytes m kptr klen).length) 0 ++
        readBytes m kptr klen) (true, [])) wptr wlen kptr klen).1 = 0 := by
    rw [state_read, state_foreign]
    rw [NOT_IN_BOUNDS_false (show kptr + klen ≤ m.length by omega),
      NOT_IN_BOUNDS_false (show (0 : Nat) + 0 ≤ m.length by omega),
      NOT_IN_BOUNDS_false (show wptr + wlen ≤ m.length by omega)]
    simp only [Bool.or_self, Bool.false_eq_true, if_false]
    rw [if_neg (show ¬ (klen > 32) by omega)]
    simp only [ne_eq, not_true_eq_false, false_and, if_false]
    rw [hkey]
    dsimp only
    simp only [not_true_eq_false, if_false, hlookup]
    by_cases hw : wptr = 0
    · rw [if_pos hw]
      norm_num [data_as_int64]
    · rw [if_neg hw]
      rw [if_neg (by simp)]
      rw [writeWasmMemory]
      have hc : ¬ (wptr + min ([] : List UInt8).length wlen > m.length) := by
        simp only [List.length_nil, Nat.zero_min]
        omega
      rw [if_neg hc]
      simp
  refine ⟨rfl, hread, by rw [hread]; decide⟩


theorem C2_amended_witness :
    (1 : Nat) ≤ 1 ∧
    ((state_set ⟨some 128, fun _ _ => none, List.replicate 20 9⟩
        ⟨fun _ => 7, 64⟩ [] 0 0 10 1).1 = 0 ∧
     (state_read ⟨some 128, fun _ _ => none, List.replicate 20 9⟩
        ⟨fun _ => 7, 64⟩
        (state_set ⟨some 128, fun _ _ => none, List.replicate 20 9⟩
          ⟨fun _ => 7, 64⟩ [] 0 0 10 1).2 0 0 10 1).1 = 0 ∧
     (state_read ⟨some 128, fun _ _ => none, List.replicate 20 9⟩
        ⟨fun _ => 7, 64⟩
        (state_set ⟨some 128, fun _ _ => none, List.replicate 20 9⟩
          ⟨fun _ => 7, 64⟩ [] 0 0 10 1).2 0 0 10 1).1 ≠ DOESNT_EXIST) :=
  ⟨le_refl 1,
    C2_amended ⟨some 128, fun _ _ => none, List.replicate 20 9⟩
      ⟨fun _ => 7, 64⟩ [] 0 0 10 1 128 (by decide) (by decide)
      (by decide) (by decide) (by decide) rfl⟩


/-- **C9**: at the failing input (valid mode `cclAPPLY|cclREMOVE`, closed
view, `hookSetTxnID = 2`, bytecode hash `hookHash = 1`) the single
appended execution-metadata record carries `hookSetTxnID`, not the
hook's content hash, in its `sfHookHash` field — `hook::apply` documents
`hookHash` as "used for metadata", but line 861 stores
`hookResult.hookSetTxnID` instead.  (With an open view and the same
valid mode, no record is appended at all.) -/
theorem C9_commit_meta_bug :
    (commitChangesToLedger ⟨2, 1, 5, ExitType.ACCEPT, [], 20, 400, [], []⟩
        ⟨false, false, fun _ => false, fun _ => some 0, 7, true⟩ 3).metaRecords =
      [{ hookResultField := ExitType.ACCEPT, hookHashField := 2,
         hookAccountField := 5, hookReturnCode := 20, hookReturnString := [],
         hookInstructionCount := 400, hookEmitCount := 0,
         hookExecutionIndex := 7, hookStateChangeCount := 0 }] ∧
    (2 : Nat) ≠
      (HookResultM.hookHash ⟨2, 1, 5, ExitType.ACCEPT, [], 20, 400, [], []⟩) ∧
    (commitChangesToLedger ⟨2, 1, 5, ExitType.ACCEPT, [], 20, 400, [], []⟩
        ⟨true, false, fun _ => false, fun _ => some 0, 7, true⟩ 3).metaRecords =
      [] := by
  refine ⟨?_, ?_, ?_⟩ <;> decide


theorem emit_expected_unchanged (env : EmitEnv) (ctx : EmitCtx) (m : Memory)
    (rp rl : Nat) (p : Option STTxM) :
    (emit env ctx m rp rl p).2.expected_etxn_count = ctx.expected_etxn_count := by
  generalize hE : emit env ctx m rp rl p = out
  obtain ⟨res, ctx2⟩ := out
  unfold emit at hE
  dsimp only at hE
  repeat' split at hE
  all_goals (injection hE with h1 h2; subst h2)
  all_goals rfl

theorem emit_success_appends (env : EmitEnv) (ctx : EmitCtx) (m : Memory)
    (rp rl : Nat) (p : Option STTxM) (h : 0 ≤ (emit env ctx m rp rl p).1) :
    (emit env ctx m rp rl p).2.emittedTxn.length = ctx.emittedTxn.length + 1 ∧
    (ctx.emittedTxn.length : Int) < ctx.expected_etxn_count := by
  generalize hE : emit env ctx m rp rl p = out at h ⊢
  obtain ⟨res, ctx2⟩ := out
  unfold emit at hE
  dsimp only at hE
  repeat' split at hE
  all_goals (injection hE with h1 h2; subst h2; subst h1)
  all_goals simp only [OUT_OF_BOUNDS, PREREQUISITE_NOT_MET,
    TOO_MANY_EMITTED_TXN, EMISSION_FAILURE] at h
  all_goals try (exfalso; omega)
  all_goals refine ⟨by simp, by omega⟩

theorem emit_fail_keeps (env : EmitEnv) (ctx : EmitCtx) (m : Memory)
    (rp rl : Nat) (p : Option STTxM) (h : (emit env ctx m rp rl p).1 < 0) :
    (emit env ctx m rp rl p).2.emittedTxn = ctx.emittedTxn := by
  generalize hE : emit env ctx m rp rl p = out at h ⊢
  obtain ⟨res, ctx2⟩ := out
  unfold emit at hE
  dsimp only at hE
  repeat' split at hE
  all_goals (injection hE with h1 h2; subst h2; subst h1)
  all_goals try rfl
  all_goals (exfalso; simp only [Nat.cast_nonneg] at h; omega)

theorem emit_at_capacity (env : EmitEnv) (ctx : EmitCtx) (m : Memory)
    (rp rl : Nat) (p : Option STTxM) (hb : rp + rl ≤ m.length)
    (hexp : 0 ≤ ctx.expected_etxn_count)
    (hlen : ctx.expected_etxn_count ≤ (ctx.emittedTxn.length : Int)) :
    (emit env ctx m rp rl p).1 = TOO_MANY_EMITTED_TXN := by
  unfold emit
  rw [if_neg (by rw [NOT_IN_BOUNDS_false hb]; simp), if_neg (by omega),
    if_pos (by omega)]

theorem runEmits_succ_bound (env : EmitEnv) (m : Memory) (count : Nat) :
    ∀ (inputs : List (Nat × Nat × Option STTxM)) (ctx : EmitCtx),
      ctx.expected_etxn_count = (count : Int) →
      (ctx.emittedTxn.length : Int) ≤ count →
      ((runEmits env m inputs ctx).1.emittedTxn.length : Int) ≤ count ∧
      (((runEmits env m inputs ctx).2.filter (fun r => decide (0 ≤ r))).length : Int) =
        ((runEmits env m inputs ctx).1.emittedTxn.length : Int) -
          ctx.emittedTxn.length := by
  intro inputs
  induction inputs with
  | nil => intro ctx h1 h2; simp [runEmits]; omega
  | cons hd tl ih =>
    intro ctx h1 h2
    obtain ⟨rp, rl, p⟩ := hd
    simp only [runEmits]
    rcases lt_or_le (emit env ctx m rp rl p).1 0 with hr | hr
    · have hkeep := emit_fail_keeps env ctx m rp rl p hr
      have hexp := emit_expected_unchanged env ctx m rp rl p
      have := ih (emit env ctx m rp rl p).2 (by rw [hexp, h1]) (by rw [hkeep]; omega)
      refine ⟨this.1, ?_⟩
      rw [List.filter_cons]
      rw [if_neg (by simp; omega)]
      rw [this.2, hkeep]
    · have happ := emit_success_appends env ctx m rp rl p hr
      have hexp := emit_expected_unchanged env ctx m rp rl p
      have := ih (emit env ctx m rp rl p).2 (by rw [hexp, h1])
        (by rw [happ.1]; omega)
      refine ⟨this.1, ?_⟩
      rw [List.filter_cons]
      rw [if_pos (by simp; omega)]
      simp only [List.length_cons]
      have h2' := this.2
      rw [happ.1] at h2'
      push_cast at h2' ⊢
      omega

/-- **C3**: after `etxn_reserve(count)` succeeds, every successful `emit`
appends exactly one transaction to the emitted-transaction FIFO, no more
than `count` emit calls succeed, and once `count` transactions have been
emitted any further (in-bounds) emit call returns
`TOO_MANY_EMITTED_TXN`. -/
theorem C3_emit_count_discipline (env : EmitEnv) (m : Memory) (count : Nat)
    (ctx0 : EmitCtx) (hres : (etxn_reserve ctx0 count).1 = (count : Int))
    (hemp : ctx0.emittedTxn = []) :
    (∀ ctx rp rl p, 0 ≤ (emit env ctx m rp rl p).1 →
      (emit env ctx m rp rl p).2.emittedTxn.length =
        ctx.emittedTxn.length + 1) ∧
    (∀ inputs : List (Nat × Nat × Option STTxM),
      (((runEmits env m inputs (etxn_reserve ctx0 count).2).2.filter
        (fun r => decide (0 ≤ r))).length : Int) ≤ count) ∧
    (∀ ctx rp rl p, rp + rl ≤ m.length →
      ctx.expected_etxn_count = (count : Int) →
      ctx.emittedTxn.length = count →
      (emit env ctx m rp rl p).1 = TOO_MANY_EMITTED_TXN) := by
  have hset : (etxn_reserve ctx0 count).2.expected_etxn_count = (count : Int) ∧
      (etxn_reserve ctx0 count).2.emittedTxn = ctx0.emittedTxn := by
    unfold etxn_reserve at *
    split_ifs at * <;>
      simp_all [ALREADY_SET, TOO_BIG]
  refine ⟨fun ctx rp rl p h => (emit_success_appends env ctx m rp rl p h).1,
    fun inputs => ?_,
    fun ctx rp rl p hb h1 h2 =>
      emit_at_capacity env ctx m rp rl p hb (by omega) (by omega)⟩
  have := runEmits_succ_bound env m count inputs (etxn_reserve ctx0 count).2
    hset.1 (by rw [hset.2, hemp]; simp)
  omega

theorem C3_emit_count_discipline_witness :
    ((etxn_reserve ⟨-1, 0, [], []⟩ 2).1 = ((2 : Nat) : Int) ∧
      (⟨-1, 0, [], []⟩ : EmitCtx).emittedTxn = []) ∧
    ((∀ ctx rp rl p, 0 ≤ (emit ⟨10, 1, false, none, none, 0, 0, 0⟩ ctx
        ⟨fun _ => 0, 16⟩ rp rl p).1 →
      (emit ⟨10, 1, false, none, none, 0, 0, 0⟩ ctx ⟨fun _ => 0, 16⟩ rp rl p).2.emittedTxn.length =
        ctx.emittedTxn.length + 1) ∧
    (∀ inputs : List (Nat × Nat × Option STTxM),
      (((runEmits ⟨10, 1, false, none, none, 0, 0, 0⟩ ⟨fun _ => 0, 16⟩ inputs
        (etxn_reserve ⟨-1, 0, [], []⟩ 2).2).2.filter
        (fun r => decide (0 ≤ r))).length : Int) ≤ 2) ∧
    (∀ ctx rp rl p, rp + rl ≤ (⟨fun _ => 0, 16⟩ : Memory).length →
      ctx.expected_etxn_count = ((2 : Nat) : Int) →
      ctx.emittedTxn.length = 2 →
      (emit ⟨10, 1, false, none, none, 0, 0, 0⟩ ctx ⟨fun _ => 0, 16⟩ rp rl p).1 =
        TOO_MANY_EMITTED_TXN)) :=
  ⟨⟨by decide, rfl⟩,
    C3_emit_count_discipline ⟨10, 1, false, none, none, 0, 0, 0⟩
      ⟨fun _ => 0, 16⟩ 2 ⟨-1, 0, [], []⟩ (by decide) rfl⟩


theorem etxn_burden_value (env : EmitEnv) (ctx : EmitCtx)
    (hexp : 0 ≤ ctx.expected_etxn_count)
    (hw1 : (otxn_burden env).toNat * ctx.expected_etxn_count.toNat < 2 ^ 64)
    (hB : ¬ etxn_burden env ctx < 1) :
    etxn_burden env ctx =
      (((otxn_burden env).toNat * ctx.expected_etxn_count.toNat : Nat) : Int) := by
  unfold etxn_burden at *
  rw [if_neg (by omega)] at hB ⊢
  dsimp only at hB ⊢
  rw [Nat.mod_eq_of_lt hw1] at hB ⊢
  split at hB
  · simp only [FEE_TOO_LARGE] at hB
    omega
  · split
    · omega
    · rfl

theorem spec_min_fee_nonneg (env : EmitEnv) (ctx : EmitCtx) (rl : Nat)
    (hB : 0 ≤ etxn_burden env ctx) : 0 ≤ spec_min_fee env ctx rl := by
  unfold spec_min_fee
  positivity

theorem floor_of_fee_base (env : EmitEnv) (ctx : EmitCtx) (rl : Nat)
    (hB : (env.base_fee : Int) * etxn_burden env ctx ≤ ctx.fee_base) :
    spec_min_fee env ctx rl ≤
      ctx.fee_base * env.drops_per_byte * rl := by
  unfold spec_min_fee
  have h1 : (env.base_fee : Int) * etxn_burden env ctx * env.drops_per_byte ≤
      ctx.fee_base * env.drops_per_byte :=
    mul_le_mul_of_nonneg_right hB (by positivity)
  exact mul_le_mul_of_nonneg_right h1 (by positivity)

theorem etxn_fee_base_floor (env : EmitEnv) (ctx : EmitCtx) (rl : Nat)
    (hexp : 0 ≤ ctx.expected_etxn_count)
    (hw1 : (otxn_burden env).toNat * ctx.expected_etxn_count.toNat < 2 ^ 64)
    (hw2 : env.base_fee * ((otxn_burden env).toNat * ctx.expected_etxn_count.toNat) < 2 ^ 64)
    (hw3 : spec_min_fee env ctx rl < 2 ^ 63)
    (hpos : 0 ≤ (etxn_fee_base env ctx rl).1) :
    spec_min_fee env ctx rl ≤
      (etxn_fee_base env ctx rl).1 * env.drops_per_byte * rl := by
  set L : Nat := (otxn_burden env).toNat * ctx.expected_etxn_count.toNat with hL
  unfold etxn_fee_base at hpos ⊢
  rw [if_neg (by omega : ¬ ctx.expected_etxn_count ≤ -1)] at hpos ⊢
  dsimp only at hpos ⊢
  by_cases hb : etxn_burden env ctx < 1
  · rw [if_pos hb] at hpos
    simp only [FEE_TOO_LARGE] at hpos
    omega
  rw [if_neg hb] at hpos ⊢
  have hB := etxn_burden_value env ctx hexp hw1 hb
  rw [← hL] at hB
  have hBtoNat : (etxn_burden env ctx).toNat = L := by
    rw [hB]
    exact Int.toNat_ofNat _
  rw [hBtoNat, Nat.mod_eq_of_lt hw2] at hpos ⊢
  by_cases hc : env.base_fee * L < L ∨ env.base_fee * L / 2 ^ 62 ≠ 0
  · rw [if_pos hc] at hpos
    simp only [FEE_TOO_LARGE] at hpos
    omega
  rw [if_neg hc] at hpos ⊢
  dsimp only at hpos ⊢
  have hXval : spec_min_fee env ctx rl =
      ((env.base_fee * L * env.drops_per_byte * rl : Nat) : Int) := by
    unfold spec_min_fee
    rw [hB]
    push_cast
    ring
  have hlt : env.base_fee * L * env.drops_per_byte * rl < 2 ^ 63 := by
    have h := hw3
    rw [hXval] at h
    exact_mod_cast h
  have hmod : (env.base_fee * L * env.drops_per_byte * rl) % 2 ^ 64 =
      env.base_fee * L * env.drops_per_byte * rl :=
    Nat.mod_eq_of_lt (by omega)
  rw [hmod, ofU64_small (by omega)]
  rw [hXval]
  rcases Nat.eq_zero_or_pos (env.drops_per_byte * rl) with hz | hp
  · have h1 : env.base_fee * L * env.drops_per_byte * rl = 0 := by
      rcases Nat.mul_eq_zero.mp hz with h | h <;> simp [h, Nat.mul_assoc]
    rw [h1]
    simp
  · have hDR : (1 : Int) ≤ (env.drops_per_byte : Int) * rl := by
      exact_mod_cast Nat.one_le_iff_ne_zero.mpr (by omega)
    have hPnn : (0 : Int) ≤
        ((env.base_fee * L * env.drops_per_byte * rl : Nat) : Int) :=
      Int.natCast_nonneg _
    calc ((env.base_fee * L * env.drops_per_byte * rl : Nat) : Int)
        = ((env.base_fee * L * env.drops_per_byte * rl : Nat) : Int) * 1 := by
          ring
      _ ≤ ((env.base_fee * L * env.drops_per_byte * rl : Nat) : Int) *
            ((env.drops_per_byte : Int) * rl) :=
          mul_le_mul_of_nonneg_left hDR hPnn
      _ = ((env.base_fee * L * env.drops_per_byte * rl : Nat) : Int) *
            env.drops_per_byte * rl := by ring

/-- **C8**: `emit` accepts a candidate transaction only if it carries a
`Fee` of at least `base_fee · burden · drops_per_byte · byte_count`
(`spec_min_fee`, with `base_fee` the ledger fee base times the fee-base
multiplier and `burden = etxn_burden`), and when the candidate passes
every other rule but violates this fee floor, `emit` returns
`EMISSION_FAILURE`.  Hypotheses: the `uint64` products do not wrap (the
fee floor fits an `int64`), and the cached `fee_base` is either unset or
at least `base_fee · burden` — the only values the API ever stores
there. -/
theorem C8_emit_fee_rule (env : EmitEnv) (ctx : EmitCtx) (m : Memory)
    (rp rl : Nat) (p : Option STTxM)
    (hw1 : (otxn_burden env).toNat * ctx.expected_etxn_count.toNat < 2 ^ 64)
    (hw2 : env.base_fee *
      ((otxn_burden env).toNat * ctx.expected_etxn_count.toNat) < 2 ^ 64)
    (hw3 : spec_min_fee env ctx rl < 2 ^ 63)
    (hfb : ctx.fee_base = 0 ∨
      (env.base_fee : Int) * etxn_burden env ctx ≤ ctx.fee_base) :
    (0 ≤ (emit env ctx m rp rl p).1 → ∀ tx, p = some tx →
      ∃ fee, tx.fee = some fee ∧ spec_min_fee env ctx rl ≤ fee) ∧
    (∀ tx, p = some tx → ¬ NOT_IN_BOUNDS rp rl m.length = true →
      0 ≤ ctx.expected_etxn_count →
      (ctx.emittedTxn.length : Int) < ctx.expected_etxn_count →
      emitRules1to6 env ctx tx = true →
      (tx.fee = none ∨ ∃ fee, tx.fee = some fee ∧ fee < spec_min_fee env ctx rl) →
      (emit env ctx m rp rl p).1 = EMISSION_FAILURE) := by
  have floor : ∀ fb1 : Int,
      (fb1 = (etxn_fee_base env ctx rl).1 ∧ ctx.fee_base = 0 ∨
        fb1 = ctx.fee_base ∧ ¬ ctx.fee_base = 0) →
      0 ≤ ctx.expected_etxn_count → 0 ≤ fb1 →
      spec_min_fee env ctx rl ≤ fb1 * env.drops_per_byte * rl := by
    intro fb1 hc hexp hpos
    rcases hc with ⟨rfl, _⟩ | ⟨rfl, hne⟩
    · exact etxn_fee_base_floor env ctx rl hexp hw1 hw2 hw3 hpos
    · rcases hfb with h | h
      · exact absurd h hne
      · exact floor_of_fee_base env ctx rl h
  constructor
  · intro hres tx htx
    unfold emit at hres
    rw [htx] at hres
    by_cases h1 : NOT_IN_BOUNDS rp rl m.length
    · rw [if_pos h1] at hres
      simp only [OUT_OF_BOUNDS] at hres
      omega
    rw [if_neg h1] at hres
    by_cases h2 : ctx.expected_etxn_count < 0
    · rw [if_pos h2] at hres
      simp only [PREREQUISITE_NOT_MET] at hres
      omega
    rw [if_neg h2] at hres
    by_cases h3 : (ctx.emittedTxn.length : Int) ≥ ctx.expected_etxn_count
    · rw [if_pos h3] at hres
      simp only [TOO_MANY_EMITTED_TXN] at hres
      omega
    rw [if_neg h3] at hres
    dsimp only at hres
    by_cases h4 : emitRules1to6 env ctx tx
    swap
    · rw [if_pos (by simpa using h4)] at hres
      simp only [EMISSION_FAILURE] at hres
      omega
    rw [if_neg (by simpa using h4)] at hres
    by_cases h5 : ctx.fee_base = 0
    · rw [if_pos h5] at hres
      dsimp only at hres
      by_cases h6 : (etxn_fee_base env ctx rl).1 *
          (env.drops_per_byte : Int) * rl < 0 ∨ (etxn_fee_base env ctx rl).1 < 0
      · rw [if_pos h6] at hres
        simp only [EMISSION_FAILURE] at hres
        omega
      rw [if_neg h6] at hres
      rcases hfee : tx.fee with _ | fee
      · rw [hfee] at hres
        simp only [EMISSION_FAILURE] at hres
        omega
      rw [hfee] at hres
      dsimp only at hres
      by_cases h7 : fee < (etxn_fee_base env ctx rl).1 *
          (env.drops_per_byte : Int) * rl
      · rw [if_pos h7] at hres
        simp only [EMISSION_FAILURE] at hres
        omega
      push_neg at h6
      exact ⟨fee, rfl,
        le_trans (floor _ (Or.inl ⟨rfl, h5⟩) (by omega) h6.2) (not_lt.mp h7)⟩
    · rw [if_neg h5] at hres
      try dsimp only at hres
      by_cases h6 : ctx.fee_base * (env.drops_per_byte : Int) * rl < 0 ∨
          ctx.fee_base < 0
      · rw [if_pos h6] at hres
        simp only [EMISSION_FAILURE] at hres
        omega
      rw [if_neg h6] at hres
      rcases hfee : tx.fee with _ | fee
      · rw [hfee] at hres
        simp only [EMISSION_FAILURE] at hres
        omega
      rw [hfee] at hres
      dsimp only at hres
      by_cases h7 : fee < ctx.fee_base * (env.drops_per_byte : Int) * rl
      · rw [if_pos h7] at hres
        simp only [EMISSION_FAILURE] at hres
        omega
      push_neg at h6
      exact ⟨fee, rfl,
        le_trans (floor _ (Or.inr ⟨rfl, h5⟩) (by omega) h6.2) (not_lt.mp h7)⟩
  · intro tx htx h1 h2 h3 h4 hviol
    unfold emit
    rw [htx, if_neg h1, if_neg (by omega), if_neg (by omega)]
    dsimp only
    rw [if_neg (by simpa using h4)]
    by_cases h5 : ctx.fee_base = 0
    · rw [if_pos h5]
      dsimp only
      by_cases h6 : (etxn_fee_base env ctx rl).1 *
          (env.drops_per_byte : Int) * rl < 0 ∨ (etxn_fee_base env ctx rl).1 < 0
      · rw [if_pos h6]
      · rw [if_neg h6]
        rcases hviol with hnone | ⟨fee, hfee, hlt⟩
        · rw [hnone]
        · rw [hfee]
          dsimp only
          push_neg at h6
          rw [if_pos (lt_of_lt_of_le hlt
            (floor _ (Or.inl ⟨rfl, h5⟩) h2 h6.2))]
    · rw [if_neg h5]
      try dsimp only
      by_cases h6 : ctx.fee_base * (env.drops_per_byte : Int) * rl < 0 ∨
          ctx.fee_base < 0
      · rw [if_pos h6]
      · rw [if_neg h6]
        rcases hviol with hnone | ⟨fee, hfee, hlt⟩
        · rw [hnone]
        · rw [hfee]
          dsimp only
          push_neg at h6
          rw [if_pos (lt_of_lt_of_le hlt
            (floor _ (Or.inr ⟨rfl, h5⟩) h2 h6.2))]

theorem C8_emit_fee_rule_witness :
    (spec_min_fee ⟨10, 2, false, none, none, 0, 0, 0⟩ ⟨1, 0, [], []⟩ 4 < 2 ^ 63 ∧
     (⟨1, 0, [], []⟩ : EmitCtx).fee_base = 0) ∧
    ((0 ≤ (emit ⟨10, 2, false, none, none, 0, 0, 0⟩ ⟨1, 0, [], []⟩
        ⟨fun _ => 0, 16⟩ 0 4 none).1 → ∀ tx, (none : Option STTxM) = some tx →
      ∃ fee, tx.fee = some fee ∧
        spec_min_fee ⟨10, 2, false, none, none, 0, 0, 0⟩ ⟨1, 0, [], []⟩ 4 ≤ fee) ∧
    (∀ tx, (none : Option STTxM) = some tx →
      ¬ NOT_IN_BOUNDS 0 4 (⟨fun _ => 0, 16⟩ : Memory).length = true →
      0 ≤ (⟨1, 0, [], []⟩ : EmitCtx).expected_etxn_count →
      (((⟨1, 0, [], []⟩ : EmitCtx).emittedTxn.length : Int) <
        (⟨1, 0, [], []⟩ : EmitCtx).expected_etxn_count) →
      emitRules1to6 ⟨10, 2, false, none, none, 0, 0, 0⟩ ⟨1, 0, [], []⟩ tx = true →
      (tx.fee = none ∨ ∃ fee, tx.fee = some fee ∧
        fee < spec_min_fee ⟨10, 2, false, none, none, 0, 0, 0⟩ ⟨1, 0, [], []⟩ 4) →
      (emit ⟨10, 2, false, none, none, 0, 0, 0⟩ ⟨1, 0, [], []⟩
        ⟨fun _ => 0, 16⟩ 0 4 none).1 = EMISSION_FAILURE)) :=
  ⟨⟨by decide, rfl⟩,
    C8_emit_fee_rule ⟨10, 2, false, none, none, 0, 0, 0⟩ ⟨1, 0, [], []⟩
      ⟨fun _ => 0, 16⟩ 0 4 none (by decide) (by decide) (by decide)
      (Or.inl rfl)⟩


theorem NOT_IN_BOUNDS_true {p l L : Nat} (h : p + l > L) :
    NOT_IN_BOUNDS p l L = true := by
  simp only [NOT_IN_BOUNDS, Bool.or_eq_true, decide_eq_true_eq]
  omega

/-- **C1 amended**: host calls bound-check each guest pointer against
the byte count they actually access.  For every pointer/length pair
checked with the guest-supplied length — such as all three pairs of
`state_foreign` and `emit`'s read pair — `ptr + len > memory_size`
(unsigned 64-bit) forces `OUT_OF_BOUNDS` with guest memory and hook
state untouched.  (It is not true of every host call: `hook_account`
checks a fixed 20 bytes and ignores the supplied length, see
`C1_counterexample`; `state_set` checks a fixed 32 bytes for its key
pointer.) -/
theorem C1_amended (env : StateEnv) (m : Memory)
    (cache : List (List UInt8 × Bool × List UInt8))
    (wp wl kp kl ap al : Nat) (eenv : EmitEnv) (ectx : EmitCtx)
    (rp rl : Nat) (p : Option STTxM) :
    (kp + kl > m.length ∨ ap + al > m.length ∨ wp + wl > m.length →
      state_foreign env m cache wp wl kp kl ap al = (OUT_OF_BOUNDS, m, cache)) ∧
    (rp + rl > m.length →
      emit eenv ectx m rp rl p = (OUT_OF_BOUNDS, ectx)) := by
  constructor
  · intro h
    have hcond : (NOT_IN_BOUNDS kp kl m.length ||
        NOT_IN_BOUNDS ap al m.length ||
        NOT_IN_BOUNDS wp wl m.length) = true := by
      simp only [NOT_IN_BOUNDS, Bool.or_eq_true, decide_eq_true_eq]
      omega
    rw [state_foreign]
    dsimp only
    rw [if_pos hcond]
  · intro h
    unfold emit
    rw [if_pos (NOT_IN_BOUNDS_true h)]

theorem C1_amended_witness :
    ((30 : Nat) + 5 > (⟨fun _ => 0, 32⟩ : Memory).length ∧
     state_foreign ⟨some 128, fun _ _ => none, List.replicate 20 9⟩
       ⟨fun _ => 0, 32⟩ [] 0 0 30 5 0 0 =
       (OUT_OF_BOUNDS, ⟨fun _ => 0, 32⟩, [])) ∧
    (emit ⟨10, 2, false, none, none, 0, 0, 0⟩ ⟨1, 0, [], []⟩
       ⟨fun _ => 0, 32⟩ 30 5 none = (OUT_OF_BOUNDS, ⟨1, 0, [], []⟩)) :=
  ⟨⟨by decide,
    (C1_amended ⟨some 128, fun _ _ => none, List.replicate 20 9⟩
      ⟨fun _ => 0, 32⟩ [] 0 0 30 5 0 0 ⟨10, 2, false, none, none, 0, 0, 0⟩
      ⟨1, 0, [], []⟩ 30 5 none).1 (by decide)⟩,
    (C1_amended ⟨some 128, fun _ _ => none, List.replicate 20 9⟩
      ⟨fun _ => 0, 32⟩ [] 0 0 30 5 0 0 ⟨10, 2, false, none, none, 0, 0, 0⟩
      ⟨1, 0, [], []⟩ 30 5 none).2 (by decide)⟩


/-- **C6 counterexample**: the valid float `6251996282790248448`
(mantissa `10^15`, exponent `-6`, positive) serialized by `float_sto` in
the XRP-native 8-byte form (`field_code = 0`) parses back through
`float_sto_set` as `EXPONENT_UNDERSIZED`, not the original float:
`float_sto_set` always decodes the IOU bit layout, which does not match
the XRP-native layout. -/
theorem C6_counterexample :
    float_sto [] [] 6251996282790248448 0 =
      Except.ok [64, 3, 141, 126, 164, 198, 128, 0] ∧
    float_sto_set [64, 3, 141, 126, 164, 198, 128, 0] = EXPONENT_UNDERSIZED ∧
    EXPONENT_UNDERSIZED ≠ (6251996282790248448 : Int) := by
  have hd : xrpNormDown 1000000000000000 (-6) = (1000000000000000, -6) := by
    rw [xrpNormDown]
    norm_num
  have hu : xrpNormUp 1000000000000000 (-6) = 1000000000000000 := by
    rw [xrpNormUp]
    norm_num
  refine ⟨?_, ?_, by decide⟩
  · rw [float_sto]
    rw [if_neg (by decide), if_neg (by decide), if_neg (by decide)]
    have hman : (get_mantissa 6251996282790248448).toNat = 1000000000000000 := by
      decide
    have hexp : get_exponent 6251996282790248448 = -6 := by decide
    have hneg : is_negative 6251996282790248448 = false := by decide
    dsimp only
    rw [hman, hexp, hneg]
    rw [if_pos (by decide), if_pos (by decide), hd, hu]
    rfl
  · rw [float_sto_set]
    rw [if_neg (by decide)]
    have hskip : stoSetHeaderSkip [64, 3, 141, 126, 164, 198, 128, 0] =
        Except.ok 0 := by rfl
    rw [hskip]
    dsimp only
    rw [if_neg (by decide)]
    rw [float_set]
    rw [if_neg (by decide)]
    dsimp only
    rw [normUp]
    norm_num [minMantissa, minExponent]
    rw [normDown]
    norm_num [maxMantissa, maxExponent]
    decide


theorem toNat_ofNat8 (n : Nat) : (UInt8.ofNat n).toNat = n % 256 := rfl

theorem getD_middle (pre rest : List UInt8) (i : Nat) :
    (pre ++ rest).getD (pre.length + i) 0 = rest.getD i 0 := by
  rw [List.getD_append_right pre rest 0 (pre.length + i) (by omega)]
  congr 1
  omega

theorem float_sto_set_decomp (b amt : List UInt8) (h : Nat)
    (hb : ∀ i, i < 8 → b.getD (h + i) 0 = amt.getD i 0)
    (hskip : stoSetHeaderSkip b = Except.ok h)
    (hlen : ¬ b.length < 8) :
    float_sto_set b =
      (if (amt.getD 1 0).toNat % 64 * 2 ^ 48 +
          (amt.getD 2 0).toNat * 2 ^ 40 +
          (amt.getD 3 0).toNat * 2 ^ 32 +
          (amt.getD 4 0).toNat * 2 ^ 24 +
          (amt.getD 5 0).toNat * 2 ^ 16 +
          (amt.getD 6 0).toNat * 2 ^ 8 +
          (amt.getD 7 0).toNat = 0 then 0
       else float_set
         ((((amt.getD 0 0).toNat % 64 * 4 + (amt.getD 1 0).toNat / 64 : Nat) : Int) - 97)
         ((if (amt.getD 0 0).toNat / 64 % 2 = 0 then -1 else 1) *
           (((amt.getD 1 0).toNat % 64 * 2 ^ 48 +
             (amt.getD 2 0).toNat * 2 ^ 40 +
             (amt.getD 3 0).toNat * 2 ^ 32 +
             (amt.getD 4 0).toNat * 2 ^ 24 +
             (amt.getD 5 0).toNat * 2 ^ 16 +
             (amt.getD 6 0).toNat * 2 ^ 8 +
             (amt.getD 7 0).toNat : Nat) : Int))) := by
  have h0 : b.getD h 0 = amt.getD 0 0 := by
    have := hb 0 (by omega)
    simpa using this
  rw [float_sto_set, if_neg hlen, hskip]
  dsimp only
  rw [h0, hb 1 (by omega), hb 2 (by omega), hb 3 (by omega), hb 4 (by omega),
    hb 5 (by omega), hb 6 (by omega), hb 7 (by omega)]

theorem float_set_normal (m e : Int) (h1 : minMantissa ≤ m) (h2 : m ≤ maxMantissa) :
    float_set e m = make_float m e ∧ float_set e (-m) = make_float (-m) e := by
  have hm0 : 0 < m := by simp only [minMantissa] at h1; omega
  constructor
  · rw [float_set, if_neg (by omega)]
    dsimp only
    rw [if_neg (by omega : ¬ m < 0)]
    rw [normUp, if_neg (by omega : ¬ m < minMantissa)]
    dsimp only
    rw [normDown, if_neg (by omega : ¬ m > maxMantissa)]
    dsimp only
    rw [if_neg (by omega : ¬ m < 0), one_mul]
  · rw [float_set, if_neg (by omega : ¬ -m = 0)]
    dsimp only
    rw [if_pos (by omega : -m < 0)]
    have : -m * -1 = m := by ring
    rw [this]
    rw [normUp, if_neg (by omega : ¬ m < minMantissa)]
    dsimp only
    rw [normDown, if_neg (by omega : ¬ m > maxMantissa)]
    dsimp only
    rw [if_pos (by omega : -m < 0), neg_one_mul]

theorem u64_small {f : Int} (h0 : 0 ≤ f) (h1 : f < 2 ^ 63) : u64 f = f.toNat := by
  unfold u64
  rw [Int.emod_eq_of_lt h0 (by omega)]

theorem exp_reassemble (b e97 x : Nat) (hb : b % 64 = 0) (he : e97 ≤ 177)
    (hx : x < 64) :
    (b + e97 / 4) % 64 * 4 + (e97 % 4 * 64 + x) / 64 = e97 := by
  omega

set_option maxHeartbeats 1000000 in
theorem byte_reassemble (man e97 : Nat) (h : man < 2 ^ 54) :
    (e97 % 4 * 64 + man / 2 ^ 48 % 64) % 64 * 2 ^ 48 +
    man / 2 ^ 40 % 256 % 256 * 2 ^ 40 +
    man / 2 ^ 32 % 256 % 256 * 2 ^ 32 +
    man / 2 ^ 24 % 256 % 256 * 2 ^ 24 +
    man / 2 ^ 16 % 256 % 256 * 2 ^ 16 +
    man / 2 ^ 8 % 256 % 256 * 2 ^ 8 +
    man % 256 % 256 = man := by
  omega

set_option maxHeartbeats 1000000 in
theorem iou_eval_neg (man e97 : Nat)
    (h1 : 1000000000000000 ≤ man) (h2 : man ≤ 9999999999999999)
    (h3 : 1 ≤ e97) (h4 : e97 ≤ 177) :
    (if ((iouAmountBytes true e97 man).getD 1 0).toNat % 64 * 2 ^ 48 +
        ((iouAmountBytes true e97 man).getD 2 0).toNat * 2 ^ 40 +
        ((iouAmountBytes true e97 man).getD 3 0).toNat * 2 ^ 32 +
        ((iouAmountBytes true e97 man).getD 4 0).toNat * 2 ^ 24 +
        ((iouAmountBytes true e97 man).getD 5 0).toNat * 2 ^ 16 +
        ((iouAmountBytes true e97 man).getD 6 0).toNat * 2 ^ 8 +
        ((iouAmountBytes true e97 man).getD 7 0).toNat = 0 then 0
     else float_set
       (((((iouAmountBytes true e97 man).getD 0 0).toNat % 64 * 4 +
          ((iouAmountBytes true e97 man).getD 1 0).toNat / 64 : Nat) : Int) - 97)
       ((if ((iouAmountBytes true e97 man).getD 0 0).toNat / 64 % 2 = 0
           then -1 else 1) *
         ((((iouAmountBytes true e97 man).getD 1 0).toNat % 64 * 2 ^ 48 +
           ((iouAmountBytes true e97 man).getD 2 0).toNat * 2 ^ 40 +
           ((iouAmountBytes true e97 man).getD 3 0).toNat * 2 ^ 32 +
           ((iouAmountBytes true e97 man).getD 4 0).toNat * 2 ^ 24 +
           ((iouAmountBytes true e97 man).getD 5 0).toNat * 2 ^ 16 +
           ((iouAmountBytes true e97 man).getD 6 0).toNat * 2 ^ 8 +
           ((iouAmountBytes true e97 man).getD 7 0).toNat : Nat) : Int))) =
    (man : Int) + (e97 : Int) * 2 ^ 54 := by
  have hm48 : man / 2 ^ 48 < 64 := by omega
  simp only [iouAmountBytes, if_pos, List.getD, List.get?_cons_zero,
    List.get?_cons_succ, Option.getD_some, toNat_ofNat8]
  have k0 : (128 + e97 / 4) % 256 = 128 + e97 / 4 := by omega
  have k1 : (e97 % 4 * 64 + man / 2 ^ 48 % 64) % 256 =
      e97 % 4 * 64 + man / 2 ^ 48 % 64 := by omega
  rw [k0, k1]
  have hmne : ¬ man = 0 := by omega
  have hsign : (128 + e97 / 4) / 64 % 2 = 0 := by omega
  have hmant := byte_reassemble man e97 (by omega)
  rw [hmant, if_neg hmne]
  clear hmant
  have hexpNat := exp_reassemble 128 e97 (man / 2 ^ 48 % 64) rfl (by omega)
    (by omega)
  rw [hexpNat, if_pos hsign, neg_one_mul]
  clear hexpNat
  have hmanu : ((man : Nat) : Int) ≤ maxMantissa := by
    simp only [maxMantissa]
    push_cast
    omega
  have hfsn := (float_set_normal ((man : Nat) : Int) (((e97 : Nat) : Int) - 97)
    (by simp only [minMantissa]; push_cast; omega) hmanu).2
  have hmfi := @make_float_inv (-((man : Nat) : Int)) (((e97 : Nat) : Int) - 97)
    (by push_cast; omega)
    (by simp only [maxMantissa]; push_cast; omega)
    (by simp only [maxMantissa]; push_cast; omega)
    (by simp only [minExponent]; push_cast; omega)
    (by simp only [maxExponent]; push_cast; omega)
  rw [hfsn, hmfi, abs_neg,
    abs_of_pos (by push_cast; omega : (0 : Int) < ((man : Nat) : Int)),
    if_pos (by push_cast; omega : -((man : Nat) : Int) < 0)]
  push_cast
  ring

set_option maxHeartbeats 1000000 in
theorem iou_eval_pos (man e97 : Nat)
    (h1 : 1000000000000000 ≤ man) (h2 : man ≤ 9999999999999999)
    (h3 : 1 ≤ e97) (h4 : e97 ≤ 177) :
    (if ((iouAmountBytes false e97 man).getD 1 0).toNat % 64 * 2 ^ 48 +
        ((iouAmountBytes false e97 man).getD 2 0).toNat * 2 ^ 40 +
        ((iouAmountBytes false e97 man).getD 3 0).toNat * 2 ^ 32 +
        ((iouAmountBytes false e97 man).getD 4 0).toNat * 2 ^ 24 +
        ((iouAmountBytes false e97 man).getD 5 0).toNat * 2 ^ 16 +
        ((iouAmountBytes false e97 man).getD 6 0).toNat * 2 ^ 8 +
        ((iouAmountBytes false e97 man).getD 7 0).toNat = 0 then 0
     else float_set
       (((((iouAmountBytes false e97 man).getD 0 0).toNat % 64 * 4 +
          ((iouAmountBytes false e97 man).getD 1 0).toNat / 64 : Nat) : Int) - 97)
       ((if ((iouAmountBytes false e97 man).getD 0 0).toNat / 64 % 2 = 0
           then -1 else 1) *
         ((((iouAmountBytes false e97 man).getD 1 0).toNat % 64 * 2 ^ 48 +
           ((iouAmountBytes false e97 man).getD 2 0).toNat * 2 ^ 40 +
           ((iouAmountBytes false e97 man).getD 3 0).toNat * 2 ^ 32 +
           ((iouAmountBytes false e97 man).getD 4 0).toNat * 2 ^ 24 +
           ((iouAmountBytes false e97 man).getD 5 0).toNat * 2 ^ 16 +
           ((iouAmountBytes false e97 man).getD 6 0).toNat * 2 ^ 8 +
           ((iouAmountBytes false e97 man).getD 7 0).toNat : Nat) : Int))) =
    (man : Int) + (e97 : Int) * 2 ^ 54 + 2 ^ 62 := by
  have hm48 : man / 2 ^ 48 < 64 := by omega
  simp only [iouAmountBytes, Bool.false_eq_true, if_false, List.getD,
    List.get?_cons_zero, List.get?_cons_succ, Option.getD_some, toNat_ofNat8]
  have k0 : (192 + e97 / 4) % 256 = 192 + e97 / 4 := by omega
  have k1 : (e97 % 4 * 64 + man / 2 ^ 48 % 64) % 256 =
      e97 % 4 * 64 + man / 2 ^ 48 % 64 := by omega
  rw [k0, k1]
  have hmne : ¬ man = 0 := by omega
  have hsign : ¬ (192 + e97 / 4) / 64 % 2 = 0 := by omega
  have hmant := byte_reassemble man e97 (by omega)
  rw [hmant, if_neg hmne]
  clear hmant
  have hexpNat := exp_reassemble 192 e97 (man / 2 ^ 48 % 64) rfl (by omega)
    (by omega)
  rw [hexpNat, if_neg hsign, one_mul]
  clear hexpNat
  have hmanu : ((man : Nat) : Int) ≤ maxMantissa := by
    simp only [maxMantissa]
    push_cast
    omega
  have hfsn := (float_set_normal ((man : Nat) : Int) (((e97 : Nat) : Int) - 97)
    (by simp only [minMantissa]; push_cast; omega) hmanu).1
  have hmfi := @make_float_inv (((man : Nat) : Int)) (((e97 : Nat) : Int) - 97)
    (by push_cast; omega)
    (by simp only [maxMantissa]; push_cast; omega) hmanu
    (by simp only [minExponent]; push_cast; omega)
    (by simp only [maxExponent]; push_cast; omega)
  rw [hfsn, hmfi,
    abs_of_pos (by push_cast; omega : (0 : Int) < ((man : Nat) : Int)),
    if_neg (by push_cast; omega : ¬ ((man : Nat) : Int) < 0)]
  push_cast
  ring

set_option maxHeartbeats 1000000 in
theorem iou_amount_roundtrip (f : Int) (hpos : 0 < f) (hflt : f < 2 ^ 63)
    (hm1 : minMantissa ≤ get_mantissa f) (hm2 : get_mantissa f ≤ maxMantissa)
    (he1 : minExponent ≤ get_exponent f) (he2 : get_exponent f ≤ maxExponent)
    (b : List UInt8) (h : Nat)
    (hb : ∀ i, i < 8 → b.getD (h + i) 0 =
      (iouAmountBytes (is_negative f) (get_exponent f + 97).toNat
        (get_mantissa f).toNat).getD i 0)
    (hskip : stoSetHeaderSkip b = Except.ok h) (hlen : ¬ b.length < 8) :
    float_sto_set b = f := by
  have hfnn : ¬ f < 0 := by omega
  have hfz : ¬ f = 0 := by omega
  have hman_def : get_mantissa f = ((f.toNat % 2 ^ 54 : Nat) : Int) := by
    rw [get_mantissa, if_neg hfnn, if_neg hfz]
  have hexp_def : get_exponent f = ((f.toNat / 2 ^ 54 % 256 : Nat) : Int) - 97 := by
    rw [get_exponent, if_neg hfnn, if_neg hfz]
  set M : Nat := f.toNat with hM
  set man : Nat := M % 2 ^ 54 with hman
  set e97 : Nat := M / 2 ^ 54 % 256 with he97
  have hmanN : (get_mantissa f).toNat = man := by
    rw [hman_def]
    exact Int.toNat_ofNat _
  have he97N : (get_exponent f + 97).toNat = e97 := by
    rw [hexp_def]
    omega
  have hman_lo : 1000000000000000 ≤ man := by
    rw [hman_def] at hm1
    simp only [minMantissa] at hm1
    exact_mod_cast hm1
  have hman_hi : man ≤ 9999999999999999 := by
    rw [hman_def] at hm2
    simp only [maxMantissa] at hm2
    exact_mod_cast hm2
  have he97_lo : 1 ≤ e97 := by
    rw [hexp_def] at he1
    simp only [minExponent] at he1
    omega
  have he97_hi : e97 ≤ 177 := by
    rw [hexp_def] at he2
    simp only [maxExponent] at he2
    omega
  have hMlt : M < 2 ^ 63 := by omega
  have hneg_iff : is_negative f = true ↔ M / 2 ^ 62 % 2 = 0 := by
    rw [is_negative, u64_small (by omega) hflt]
    simp
  have hdecomp : M = man + e97 * 2 ^ 54 + M / 2 ^ 62 * 2 ^ 62 := by omega
  have hfM : ((M : Nat) : Int) = f := Int.toNat_of_nonneg (by omega)
  rw [float_sto_set_decomp b _ h hb hskip hlen, hmanN, he97N]
  cases hbool : is_negative f with
  | true =>
    have hs : M / 2 ^ 62 = 0 := by
      have := hneg_iff.mp hbool
      omega
    rw [iou_eval_neg man e97 hman_lo hman_hi he97_lo he97_hi]
    omega
  | false =>
    have hs : M / 2 ^ 62 = 1 := by
      have : ¬ (M / 2 ^ 62 % 2 = 0) := fun hc =>
        by simp [hneg_iff.mpr hc] at hbool
      omega
    rw [iou_eval_pos man e97 hman_lo hman_hi he97_lo he97_hi]
    omega

theorem nil_append_u8 (l : List UInt8) : ([] : List UInt8).append l = l := rfl

theorem cons_append_u8 (a : UInt8) (l1 l2 : List UInt8) :
    (a :: l1).append l2 = a :: l1.append l2 := rfl

theorem iouAmountBytes_len (neg : Bool) (e97 man : Nat) :
    (iouAmountBytes neg e97 man).length = 8 := rfl

theorem stoSetHeaderSkip_len8 (b : List UInt8) (h : b.length = 8) :
    stoSetHeaderSkip b = Except.ok 0 := by
  rw [stoSetHeaderSkip, if_neg (by omega)]

theorem stoSetHeaderSkip_cons1 (x : UInt8) (rest : List UInt8)
    (hlen : rest.length ≥ 8)
    (hhi : ¬ x.toNat / 16 = 0) (hlo : ¬ x.toNat % 16 = 0) :
    stoSetHeaderSkip (x :: rest) = Except.ok 1 := by
  rw [stoSetHeaderSkip, if_pos (by simp only [List.length_cons]; omega)]
  dsimp only
  simp only [List.getD, List.get?_cons_zero, Option.getD_some]
  rw [if_neg (fun hc => hlo hc.2), if_neg (fun hc => hc.elim hhi hlo)]

theorem stoSetHeaderSkip_cons2 (x : UInt8) (rest : List UInt8)
    (hlen : rest.length ≥ 9)
    (hne : ¬ (x.toNat / 16 = 0 ∧ x.toNat % 16 = 0))
    (hor : x.toNat / 16 = 0 ∨ x.toNat % 16 = 0) :
    stoSetHeaderSkip (x :: rest) = Except.ok 2 := by
  rw [stoSetHeaderSkip, if_pos (by simp only [List.length_cons]; omega)]
  dsimp only
  simp only [List.getD, List.get?_cons_zero, Option.getD_some]
  rw [if_neg hne, if_pos hor,
    if_neg (by simp only [List.length_cons]; omega)]

theorem stoSetHeaderSkip_cons3 (rest : List UInt8) (hlen : rest.length ≥ 10) :
    stoSetHeaderSkip ((0 : UInt8) :: rest) = Except.ok 3 := by
  rw [stoSetHeaderSkip, if_pos (by simp only [List.length_cons]; omega)]
  dsimp only
  simp only [List.getD, List.get?_cons_zero, Option.getD_some]
  rw [if_pos (by constructor <;> rfl),
    if_neg (by simp only [List.length_cons]; omega)]

theorem sto_roundtrip_aux (f : Int) (pre post : List UInt8)
    (hf0 : 0 < f) (hf63 : f < 2 ^ 63)
    (hm1 : minMantissa ≤ get_mantissa f) (hm2 : get_mantissa f ≤ maxMantissa)
    (he1 : minExponent ≤ get_exponent f) (he2 : get_exponent f ≤ maxExponent)
    (hskip : stoSetHeaderSkip (pre ++ (iouAmountBytes (is_negative f)
      (get_exponent f + 97).toNat (get_mantissa f).toNat ++ post)) =
      Except.ok pre.length) :
    float_sto_set (pre ++ (iouAmountBytes (is_negative f)
      (get_exponent f + 97).toNat (get_mantissa f).toNat ++ post)) = f := by
  refine iou_amount_roundtrip f hf0 hf63 hm1 hm2 he1 he2 _ pre.length ?_ hskip ?_
  · intro i hi
    rw [getD_middle]
    exact List.getD_append _ _ 0 i (by rw [iouAmountBytes_len]; omega)
  · rw [List.length_append, List.length_append, iouAmountBytes_len]
    omega

/-- C6 (amended): the `float_sto` / `float_sto_set` round trip holds for the
IOU serialization forms -- the bare amount (`field_code = 0xFFFFFFFF`) and the
wrapped amount with any field header whose field and type halves are nonzero --
for every valid nonzero positive hook-float.  (The XRP-native form
`field_code = 0` does not round-trip; see the counterexample.) -/
theorem C6_amended (cur iss : List UInt8) (f : Int) (fc : Nat)
    (hf0 : 0 < f) (hf63 : f < 2 ^ 63)
    (hm1 : minMantissa ≤ get_mantissa f) (hm2 : get_mantissa f ≤ maxMantissa)
    (he1 : minExponent ≤ get_exponent f) (he2 : get_exponent f ≤ maxExponent)
    (hform : fc = 4294967295 ∨
      (cur.length = 20 ∧ iss.length = 20 ∧
        1 ≤ fc % 65536 ∧ 1 ≤ fc / 65536)) :
    ∃ b, float_sto cur iss f fc = Except.ok b ∧ float_sto_set b = f := by
  have hfnn : ¬ f < 0 := by omega
  have hrange : ¬ (f ≠ 0 ∧ (get_mantissa f < minMantissa ∨
      get_mantissa f > maxMantissa ∨ get_exponent f > maxExponent ∨
      get_exponent f < minExponent)) := by
    rintro ⟨-, h | h | h | h⟩ <;> omega
  have hman0 : ¬ (get_mantissa f).toNat = 0 := by
    simp only [minMantissa] at hm1
    omega
  by_cases hshort : fc = 4294967295
  · subst hshort
    have heq : float_sto cur iss f 4294967295 =
        Except.ok (iouAmountBytes (is_negative f)
          (get_exponent f + 97).toNat (get_mantissa f).toNat) := by
      unfold float_sto
      rw [if_neg hfnn, if_neg hrange]
      dsimp only
      rw [if_neg (fun hc => hc.2.1 rfl), if_pos (Or.inr rfl),
        if_neg (by omega : ¬ (4294967295 : Nat) = 0), if_neg hman0,
        if_neg (fun hc => hc.2 rfl)]
      simp
    refine ⟨_, heq, ?_⟩
    refine iou_amount_roundtrip f hf0 hf63 hm1 hm2 he1 he2 _ 0 ?_
      (stoSetHeaderSkip_len8 _ (iouAmountBytes_len _ _ _)) ?_
    · intro i hi
      rw [Nat.zero_add]
    · rw [iouAmountBytes_len]
      omega
  · have hC : cur.length = 20 ∧ iss.length = 20 ∧
        1 ≤ fc % 65536 ∧ 1 ≤ fc / 65536 := by
      rcases hform with h | h
      · exact absurd h hshort
      · exact h
    obtain ⟨hcur, hiss, hfld1, hty1⟩ := hC
    have hz : ¬ fc = 0 := by omega
    have hrest : (iouAmountBytes (is_negative f)
        (get_exponent f + 97).toNat (get_mantissa f).toNat ++
        (cur ++ iss)).length = 48 := by
      rw [List.length_append, List.length_append, iouAmountBytes_len,
        hcur, hiss]
    by_cases hfld : fc % 65536 < 16 <;> by_cases hty : fc / 65536 < 16
    · -- one-byte header
      have heq : float_sto cur iss f fc =
          Except.ok ([UInt8.ofNat (fc / 65536 * 16 + fc % 65536)] ++
            (iouAmountBytes (is_negative f)
              (get_exponent f + 97).toNat (get_mantissa f).toNat ++
            (cur ++ iss))) := by
        unfold float_sto
        rw [if_neg hfnn, if_neg hrange]
        dsimp only
        rw [if_neg (fun hc => hc.2.2.elim (fun h => h hcur) (fun h => h hiss)),
          if_neg (fun hc => hc.elim hz hshort), if_pos ⟨hfld, hty⟩,
          if_neg hz, if_neg hman0, if_pos ⟨hz, hshort⟩]
        rw [List.append_assoc]
      refine ⟨_, heq, sto_roundtrip_aux f _ _ hf0 hf63 hm1 hm2 he1 he2 ?_⟩
      refine stoSetHeaderSkip_cons1 _ _ ?_ ?_ ?_
      · try simp only [cons_append_u8, nil_append_u8, List.length_cons]
        rw [hrest]
        omega
      · rw [toNat_ofNat8]
        omega
      · rw [toNat_ofNat8]
        omega
    · -- two-byte header, small field nibble, large type
      have heq : float_sto cur iss f fc =
          Except.ok ([UInt8.ofNat (fc % 65536 * 16), UInt8.ofNat (fc / 65536)] ++
            (iouAmountBytes (is_negative f)
              (get_exponent f + 97).toNat (get_mantissa f).toNat ++
            (cur ++ iss))) := by
        unfold float_sto
        rw [if_neg hfnn, if_neg hrange]
        dsimp only
        rw [if_neg (fun hc => hc.2.2.elim (fun h => h hcur) (fun h => h hiss)),
          if_neg (fun hc => hc.elim hz hshort),
          if_neg (fun hc => hty hc.2), if_neg (fun hc => hty hc.2),
          if_pos ⟨hfld, by omega⟩,
          if_neg hz, if_neg hman0, if_pos ⟨hz, hshort⟩]
        rw [List.append_assoc]
      refine ⟨_, heq, sto_roundtrip_aux f _ _ hf0 hf63 hm1 hm2 he1 he2 ?_⟩
      refine stoSetHeaderSkip_cons2 _ _ ?_ ?_ ?_
      · try simp only [cons_append_u8, nil_append_u8, List.length_cons]
        rw [hrest]
        omega
      · rw [toNat_ofNat8]
        omega
      · rw [toNat_ofNat8]
        omega
    · -- two-byte header, large field, small type nibble
      have heq : float_sto cur iss f fc =
          Except.ok ([UInt8.ofNat (fc / 65536 * 16), UInt8.ofNat (fc % 65536)] ++
            (iouAmountBytes (is_negative f)
              (get_exponent f + 97).toNat (get_mantissa f).toNat ++
            (cur ++ iss))) := by
        unfold float_sto
        rw [if_neg hfnn, if_neg hrange]
        dsimp only
        rw [if_neg (fun hc => hc.2.2.elim (fun h => h hcur) (fun h => h hiss)),
          if_neg (fun hc => hc.elim hz hshort),
          if_neg (fun hc => hfld hc.1), if_pos ⟨by omega, hty⟩,
          if_neg hz, if_neg hman0, if_pos ⟨hz, hshort⟩]
        rw [List.append_assoc]
      refine ⟨_, heq, sto_roundtrip_aux f _ _ hf0 hf63 hm1 hm2 he1 he2 ?_⟩
      refine stoSetHeaderSkip_cons2 _ _ ?_ ?_ ?_
      · try simp only [cons_append_u8, nil_append_u8, List.length_cons]
        rw [hrest]
        omega
      · rw [toNat_ofNat8]
        omega
      · rw [toNat_ofNat8]
        omega
    · -- three-byte header
      have heq : float_sto cur iss f fc =
          Except.ok ([0, UInt8.ofNat (fc / 65536), UInt8.ofNat (fc % 65536)] ++
            (iouAmountBytes (is_negative f)
              (get_exponent f + 97).toNat (get_mantissa f).toNat ++
            (cur ++ iss))) := by
        unfold float_sto
        rw [if_neg hfnn, if_neg hrange]
        dsimp only
        rw [if_neg (fun hc => hc.2.2.elim (fun h => h hcur) (fun h => h hiss)),
          if_neg (fun hc => hc.elim hz hshort),
          if_neg (fun hc => hfld hc.1), if_neg (fun hc => hty hc.2),
          if_neg (fun hc => hfld hc.1),
          if_neg hz, if_neg hman0, if_pos ⟨hz, hshort⟩]
        rw [List.append_assoc]
      refine ⟨_, heq, sto_roundtrip_aux f _ _ hf0 hf63 hm1 hm2 he1 he2 ?_⟩
      refine stoSetHeaderSkip_cons3 _ ?_
      try simp only [cons_append_u8, nil_append_u8, List.length_cons]
      rw [hrest]
      omega

/-- Witness for C6 (amended): a concrete valid float in the bare IOU form. -/
theorem C6_amended_witness :
    ∃ b, float_sto [] [] 6360082673847140352 4294967295 = Except.ok b ∧
      float_sto_set b = 6360082673847140352 :=
  C6_amended [] [] 6360082673847140352 4294967295 (by decide) (by decide)
    (by decide) (by decide) (by decide) (by decide) (Or.inl rfl)

theorem parseHeader_extend (xs ext : List Nat) (v : Nat × Nat × Nat)
    (h : parseHeader xs = Except.ok v) :
    parseHeader (xs ++ ext) = Except.ok v := by
  have hlen2 : 2 ≤ xs.length := by
    by_contra hc
    rw [parseHeader, if_pos (by omega)] at h
    exact absurd h (by simp)
  have hg0 : (xs ++ ext).getD 0 0 = xs.getD 0 0 :=
    List.getD_append _ _ _ _ (by omega)
  have hg1 : (xs ++ ext).getD 1 0 = xs.getD 1 0 :=
    List.getD_append _ _ _ _ (by omega)
  rw [parseHeader] at h
  rw [parseHeader]
  try dsimp only at h ⊢
  rw [if_neg (by omega : ¬ 1 ≥ xs.length)] at h
  rw [if_neg (by rw [List.length_append]; omega), hg0, hg1]
  by_cases h1 : 0 < xs.getD 0 0 / 16 ∧ 0 < xs.getD 0 0 % 16
  · rw [if_pos h1] at h
    rw [if_pos h1]
    exact h
  · rw [if_neg h1] at h
    rw [if_neg h1]
    by_cases h2 : 0 < xs.getD 0 0 / 16
    · rw [if_pos h2] at h
      rw [if_pos h2]
      exact h
    · rw [if_neg h2] at h
      rw [if_neg h2]
      by_cases h3 : 0 < xs.getD 0 0 % 16
      · rw [if_pos h3] at h
        rw [if_pos h3]
        exact h
      · rw [if_neg h3] at h
        rw [if_neg h3]
        have hlen3 : 3 ≤ xs.length := by
          by_contra hc
          rw [if_pos (by omega)] at h
          exact absurd h (by simp)
        have hg2 : (xs ++ ext).getD 2 0 = xs.getD 2 0 :=
          List.getD_append _ _ _ _ (by omega)
        rw [if_neg (by omega : ¬ 2 ≥ xs.length)] at h
        rw [if_neg (by rw [List.length_append]; omega), hg2]
        exact h

theorem vlLength_extend (xs ext : List Nat) (upto : Nat) (v : Nat × Nat)
    (hup : upto < xs.length) (h : vlLength xs upto = Except.ok v) :
    vlLength (xs ++ ext) upto = Except.ok v := by
  have hc1 : ¬ (upto + 1 ≥ xs.length) := by
    by_contra hc
    rw [vlLength, if_pos (by omega)] at h
    exact absurd h (by simp)
  have hg0 : (xs ++ ext).getD upto 0 = xs.getD upto 0 :=
    List.getD_append _ _ _ _ (by omega)
  have hg1 : (xs ++ ext).getD (upto + 1) 0 = xs.getD (upto + 1) 0 :=
    List.getD_append _ _ _ _ (by omega)
  rw [vlLength] at h
  rw [vlLength]
  try dsimp only at h ⊢
  rw [if_neg hc1] at h
  rw [if_neg (by rw [List.length_append]; omega), hg0, hg1]
  by_cases hb1 : xs.getD upto 0 < 193
  · rw [if_pos hb1] at h
    rw [if_pos hb1]
    exact h
  · rw [if_neg hb1] at h
    rw [if_neg hb1]
    by_cases hb2 : xs.getD upto 0 < 241
    · rw [if_pos hb2] at h
      rw [if_pos hb2]
      have hc2 : ¬ (upto + 2 > xs.length) := by
        by_contra hc
        rw [if_pos (by omega)] at h
        exact absurd h (by simp)
      rw [if_neg hc2] at h
      rw [if_neg (by rw [List.length_append]; omega)]
      exact h
    · rw [if_neg hb2] at h
      rw [if_neg hb2]
      have hc3 : ¬ (upto + 2 ≥ xs.length) := by
        by_contra hc
        rw [if_pos (by omega)] at h
        exact absurd h (by simp)
      rw [if_neg hc3] at h
      have hc4 : ¬ (upto + 3 ≥ xs.length) := by
        by_contra hc
        rw [if_pos (by omega)] at h
        exact absurd h (by simp)
      rw [if_neg hc4] at h
      have hg2 : (xs ++ ext).getD (upto + 2) 0 = xs.getD (upto + 2) 0 :=
        List.getD_append _ _ _ _ (by omega)
      rw [if_neg (by rw [List.length_append]; omega),
        if_neg (by rw [List.length_append]; omega), hg2]
      exact h

theorem parseObjLoop_extend (sub : List Nat → Except Int (Nat × Nat × Nat))
    (hsub : ∀ xs ext v, sub xs = Except.ok v → sub (xs ++ ext) = Except.ok v)
    (ty : Nat) (l ext : List Nat) (iter : Nat) :
    ∀ (upto t : Nat), upto ≤ l.length →
    parseObjLoop sub ty l upto iter = Except.ok t →
    parseObjLoop sub ty (l ++ ext) upto iter = Except.ok t := by
  induction iter with
  | zero =>
    intro upto t _ h
    rw [parseObjLoop] at h
    exact absurd h (by simp)
  | succ n ih =>
    intro upto t hup h
    rw [parseObjLoop] at h
    rw [parseObjLoop]
    cases hs : sub (l.drop upto) with
    | error e =>
      rw [hs] at h
      exact absurd h (by simp)
    | ok v =>
      obtain ⟨sublen, ty2, fl2⟩ := v
      rw [hs] at h
      dsimp only at h
      have hs2 : sub ((l ++ ext).drop upto) = Except.ok (sublen, ty2, fl2) := by
        rw [List.drop_append_of_le_length hup]
        exact hsub _ _ _ hs
      rw [hs2]
      dsimp only
      have hc1 : ¬ (upto + sublen ≥ l.length) := by
        by_contra hc
        rw [if_pos hc] at h
        exact absurd h (by simp)
      rw [if_neg hc1] at h
      rw [if_neg (by rw [List.length_append]; omega)]
      have hgd : (l ++ ext).getD (upto + sublen) 0 = l.getD (upto + sublen) 0 :=
        List.getD_append _ _ _ _ (by omega)
      rw [hgd]
      by_cases hterm : (l.getD (upto + sublen) 0 = 225 ∧ ty = 14) ∨
          (l.getD (upto + sublen) 0 = 241 ∧ ty = 15)
      · rw [if_pos hterm] at h
        rw [if_pos hterm]
        exact h
      · rw [if_neg hterm] at h
        rw [if_neg hterm]
        exact ih _ _ (by omega) h

theorem parseFieldAux_extend (sub : List Nat → Except Int (Nat × Nat × Nat))
    (hsub : ∀ xs ext v, sub xs = Except.ok v → sub (xs ++ ext) = Except.ok v)
    (xs ext : List Nat) (v : Nat × Nat × Nat)
    (h : parseFieldAux sub xs = Except.ok v) :
    parseFieldAux sub (xs ++ ext) = Except.ok v := by
  rw [parseFieldAux] at h
  rw [parseFieldAux]
  cases hh : parseHeader xs with
  | error e =>
    rw [hh] at h
    exact absurd h (by simp)
  | ok w =>
    obtain ⟨ty, fl, upto⟩ := w
    rw [hh] at h
    rw [parseHeader_extend xs ext _ hh]
    dsimp only at h ⊢
    have hup : ¬ (upto ≥ xs.length) := by
      by_contra hc
      rw [if_pos hc] at h
      exact absurd h (by simp)
    rw [if_neg hup] at h
    rw [if_neg (by rw [List.length_append]; omega)]
    by_cases hbad : ty < 1 ∨ ty > 19 ∨ (9 ≤ ty ∧ ty ≤ 13)
    · rw [if_pos hbad] at h
      exact absurd h (by simp)
    · rw [if_neg hbad] at h
      rw [if_neg hbad]
      by_cases hvl : ty = 7 ∨ ty = 8 ∨ ty = 18 ∨ ty = 19
      · rw [if_pos hvl] at h
        rw [if_pos hvl]
        cases hv : vlLength xs upto with
        | error e =>
          rw [hv] at h
          exact absurd h (by simp)
        | ok lv =>
          obtain ⟨len, upto2⟩ := lv
          rw [hv] at h
          rw [vlLength_extend xs ext upto _ (by omega) hv]
          exact h
      · rw [if_neg hvl] at h
        rw [if_neg hvl]
        by_cases hfix : ty = 1 ∨ ty = 2 ∨ ty = 3 ∨ ty = 4 ∨ ty = 5 ∨
            ty = 16 ∨ ty = 17
        · rw [if_pos hfix] at h
          rw [if_pos hfix]
          exact h
        · rw [if_neg hfix] at h
          rw [if_neg hfix]
          by_cases h6 : ty = 6
          · rw [if_pos h6] at h
            rw [if_pos h6]
            rw [if_neg hup] at h
            have hgu : (xs ++ ext).getD upto 0 = xs.getD upto 0 :=
              List.getD_append _ _ _ _ (by omega)
            rw [if_neg (by rw [List.length_append]; omega), hgu]
            exact h
          · rw [if_neg h6] at h
            rw [if_neg h6]
            by_cases hobj : ty = 14 ∨ ty = 15
            · rw [if_pos hobj] at h
              rw [if_pos hobj]
              cases ho : parseObjLoop sub ty xs upto 1024 with
              | error e =>
                rw [ho] at h
                exact absurd h (by simp)
              | ok t =>
                rw [ho] at h
                rw [parseObjLoop_extend sub hsub ty xs ext 1024 upto t
                  (by omega) ho]
                exact h
            · rw [if_neg hobj] at h
              exact absurd h (by simp)

theorem parseField_extend (gas : Nat) (xs ext : List Nat) (v : Nat × Nat × Nat)
    (h : parseField gas xs = Except.ok v) :
    parseField gas (xs ++ ext) = Except.ok v := by
  induction gas generalizing xs ext v with
  | zero =>
    have h0 : parseField 0 xs = Except.error (-4) := rfl
    rw [h0] at h
    exact absurd h (by simp)
  | succ n ih =>
    have hsucc : ∀ l, parseField (n + 1) l = parseFieldAux (parseField n) l :=
      fun _ => rfl
    rw [hsucc] at h
    rw [hsucc]
    exact parseFieldAux_extend (parseField n) (fun a b c hc => ih a b c hc)
      xs ext v h

theorem chunksJoin_append (a b : List (List Nat × Nat × Nat)) :
    chunksJoin (a ++ b) = chunksJoin a ++ chunksJoin b := by
  induction a with
  | nil => simp [chunksJoin]
  | cons c a ih =>
    rw [List.cons_append, chunksJoin, chunksJoin, ih, List.append_assoc]

theorem emplaceLoop_skip (fld : List Nat) (fid : Nat) (src : List Nat)
    (cs : List (List Nat × Nat × Nat)) :
    ∀ (upto k : Nat) (rest : List Nat),
    src.drop upto = chunksJoin cs ++ rest →
    (∀ c ∈ cs, parseField 11 c.1 = Except.ok (c.1.length, c.2.1, c.2.2) ∧
      0 < c.1.length) →
    (∀ c ∈ cs, c.2.1 * 65536 + c.2.2 < fid) →
    emplaceLoop fld fid src upto (cs.length + k) =
      emplaceLoop fld fid src (upto + (chunksJoin cs).length) k := by
  induction cs with
  | nil =>
    intro upto k rest hdrop hok hlt
    simp [chunksJoin]
  | cons c cs ih =>
    intro upto k rest hdrop hok hlt
    have hchunk := hok c (by simp)
    have hup_lt : upto < src.length := by
      by_contra hc
      have hnil : src.drop upto = [] := List.drop_eq_nil_of_le (by omega)
      rw [hnil, chunksJoin] at hdrop
      have hlen := congrArg List.length hdrop
      simp [List.length_append] at hlen
      omega
    have hparse : parseField 11 (src.drop upto) =
        Except.ok (c.1.length, c.2.1, c.2.2) := by
      rw [hdrop, chunksJoin, List.append_assoc]
      exact parseField_extend 11 c.1 _ _ hchunk.1
    have hdrop2 : src.drop (upto + c.1.length) = chunksJoin cs ++ rest := by
      have h1 : src.drop (upto + c.1.length) = (src.drop upto).drop c.1.length := by
        rw [List.drop_drop, Nat.add_comm]
      rw [h1, hdrop, chunksJoin, List.append_assoc, List.drop_left]
    have hfuel : (c :: cs).length + k = (cs.length + k) + 1 := by
      simp [List.length_cons]
      omega
    rw [hfuel, emplaceLoop, if_pos hup_lt, hparse]
    dsimp only
    have hltc := hlt c (by simp)
    rw [if_neg (by omega), if_neg (by omega)]
    have hpos : upto + (chunksJoin (c :: cs)).length =
        upto + c.1.length + (chunksJoin cs).length := by
      rw [chunksJoin, List.length_append]
      omega
    rw [hpos]
    exact ih (upto + c.1.length) k rest hdrop2
      (fun d hd => hok d (List.mem_cons_of_mem _ hd))
      (fun d hd => hlt d (List.mem_cons_of_mem _ hd))

theorem emplaceLoop_end (fld : List Nat) (fid : Nat) (src : List Nat)
    (upto k : Nat) (h : src.length ≤ upto) :
    emplaceLoop fld fid src upto k = Except.ok (src ++ fld) := by
  cases k with
  | zero => rw [emplaceLoop]
  | succ n => rw [emplaceLoop, if_neg (by omega)]

theorem emplaceLoop_insert (fld : List Nat) (fid : Nat) (src : List Nat)
    (upto k len ty fl : Nat)
    (hup : upto < src.length)
    (hparse : parseField 11 (src.drop upto) = Except.ok (len, ty, fl))
    (hgt : fid < ty * 65536 + fl) :
    emplaceLoop fld fid src upto (k + 1) =
      Except.ok (src.take upto ++ fld ++ src.drop upto) := by
  rw [emplaceLoop, if_pos hup, hparse]
  dsimp only
  rw [if_neg (by omega), if_pos hgt]

theorem eraseLoop_chunks (fid : Nat) (l : List Nat)
    (cs : List (List Nat × Nat × Nat)) :
    ∀ (upto : Nat) (found : Option (Nat × Nat)) (fuel : Nat),
    l.drop upto = chunksJoin cs →
    (∀ c ∈ cs, parseField 11 c.1 = Except.ok (c.1.length, c.2.1, c.2.2) ∧
      0 < c.1.length) →
    cs.length ≤ fuel →
    eraseLoop fid l upto found fuel =
      Except.ok (lastMatch fid cs upto found) := by
  induction cs with
  | nil =>
    intro upto found fuel hdrop _ _
    have hle : l.length ≤ upto := by
      have hlen := congrArg List.length hdrop
      rw [List.length_drop, chunksJoin] at hlen
      simp at hlen
      omega
    cases fuel with
    | zero => rw [eraseLoop, lastMatch]
    | succ n => rw [eraseLoop, if_neg (by omega), lastMatch]
  | cons c cs ih =>
    intro upto found fuel hdrop hok hfuel
    have hchunk := hok c (by simp)
    have hup_lt : upto < l.length := by
      by_contra hc
      have hnil : l.drop upto = [] := List.drop_eq_nil_of_le (by omega)
      rw [hnil, chunksJoin] at hdrop
      have hlen := congrArg List.length hdrop
      simp [List.length_append] at hlen
      omega
    obtain ⟨fuel2, rfl⟩ : ∃ m, fuel = m + 1 := by
      cases fuel with
      | zero =>
        simp [List.length_cons] at hfuel
      | succ m => exact ⟨m, rfl⟩
    have hparse : parseField 11 (l.drop upto) =
        Except.ok (c.1.length, c.2.1, c.2.2) := by
      rw [hdrop, chunksJoin]
      exact parseField_extend 11 c.1 _ _ hchunk.1
    have hdrop2 : l.drop (upto + c.1.length) = chunksJoin cs := by
      have h1 : l.drop (upto + c.1.length) = (l.drop upto).drop c.1.length := by
        rw [List.drop_drop, Nat.add_comm]
      rw [h1, hdrop, chunksJoin, List.drop_left]
    rw [eraseLoop, if_pos hup_lt, hparse]
    dsimp only
    rw [lastMatch]
    exact ih (upto + c.1.length) _ fuel2 hdrop2
      (fun d hd => hok d (List.mem_cons_of_mem _ hd))
      (by simp [List.length_cons] at hfuel; omega)

theorem lastMatch_ne (fid : Nat) (cs : List (List Nat × Nat × Nat))
    (h : ∀ c ∈ cs, c.2.1 * 65536 + c.2.2 ≠ fid) :
    ∀ upto found, lastMatch fid cs upto found = found := by
  induction cs with
  | nil =>
    intro upto found
    rw [lastMatch]
  | cons c cs ih =>
    intro upto found
    rw [lastMatch, if_neg (h c (by simp))]
    exact ih (fun d hd => h d (List.mem_cons_of_mem _ hd)) _ _

theorem lastMatch_append (fid : Nat) (a b : List (List Nat × Nat × Nat)) :
    ∀ upto found, lastMatch fid (a ++ b) upto found =
      lastMatch fid b (upto + (chunksJoin a).length)
        (lastMatch fid a upto found) := by
  induction a with
  | nil =>
    intro upto found
    rw [chunksJoin]
    simp [lastMatch]
  | cons c a ih =>
    intro upto found
    simp only [List.cons_append, List.append_eq, lastMatch]
    rw [ih]
    have hx : upto + (chunksJoin (c :: a)).length =
        upto + c.1.length + (chunksJoin a).length := by
      rw [chunksJoin, List.length_append]
      omega
    rw [hx]

/-- C7: for every serialized object `src` -- a sequence of parseable
top-level fields none of which carries `F`'s field code, split as the
fields with smaller codes (`cs1`) followed by the rest (`cs2`, whose
first field, if any, has a larger code) -- and every fully-wrapped field
`F` (parsing to exactly its own bytes), `sto_erase` applied to the
output of `sto_emplace src F` with `F`'s field code returns exactly
`src`.  Size and count side conditions are the source's own limits:
16 KiB object, 4 KiB field, 1024 walk iterations. -/
theorem C7_emplace_erase_roundtrip
    (src fld : List Nat) (field_id : Nat)
    (cs1 cs2 : List (List Nat × Nat × Nat)) (tyF flF : Nat)
    (hsrc : src = chunksJoin (cs1 ++ cs2))
    (hchunks : ∀ c ∈ cs1 ++ cs2,
      parseField 11 c.1 = Except.ok (c.1.length, c.2.1, c.2.2) ∧
      0 < c.1.length)
    (hlt : ∀ c ∈ cs1, c.2.1 * 65536 + c.2.2 < field_id)
    (hne : ∀ c ∈ cs2, c.2.1 * 65536 + c.2.2 ≠ field_id)
    (hhead : ∀ c cs2t, cs2 = c :: cs2t → field_id < c.2.1 * 65536 + c.2.2)
    (hfld : parseField 11 fld = Except.ok (fld.length, tyF, flF))
    (hfid : tyF * 65536 + flF = field_id) (hfld0 : 0 < fld.length)
    (hsize : src.length + fld.length ≤ 16384) (hfldsize : fld.length ≤ 4096)
    (hcount : cs1.length + cs2.length + 1 ≤ 1024) :
    ∃ out, sto_emplace src fld field_id = Except.ok out ∧
      sto_erase out field_id = Except.ok src := by
  have hsrcsplit : src = chunksJoin cs1 ++ chunksJoin cs2 := by
    rw [hsrc, chunksJoin_append]
  refine ⟨chunksJoin cs1 ++ fld ++ chunksJoin cs2, ?_, ?_⟩
  · -- the emplace computation
    rw [sto_emplace, if_neg (by omega), if_neg (by omega)]
    have hk : cs1.length + (1024 - cs1.length) = 1024 := by omega
    rw [show (1024 : Nat) = cs1.length + (1024 - cs1.length) from by omega]
    rw [emplaceLoop_skip fld field_id src cs1 0 (1024 - cs1.length)
      (chunksJoin cs2) (by rw [List.drop_zero, hsrcsplit])
      (fun c hc => hchunks c (by simp [hc]))
      hlt]
    have hcs1len : (chunksJoin cs1).length ≤ src.length := by
      rw [hsrcsplit, List.length_append]
      omega
    cases hcs2 : cs2 with
    | nil =>
      have hlen_eq : src.length ≤ 0 + (chunksJoin cs1).length := by
        rw [hsrcsplit, hcs2, chunksJoin]
        simp [List.length_append]
      rw [emplaceLoop_end fld field_id src _ _ hlen_eq]
      rw [hsrcsplit, hcs2, chunksJoin]
      simp
    | cons c cs2t =>
      have hchead := hhead c cs2t hcs2
      have hcchunk := hchunks c (by simp [hcs2])
      have hdrop1 : src.drop (0 + (chunksJoin cs1).length) = chunksJoin cs2 := by
        rw [Nat.zero_add, hsrcsplit, List.drop_left]
      have hup1 : 0 + (chunksJoin cs1).length < src.length := by
        have hlen := congrArg List.length hdrop1
        rw [List.length_drop, hcs2, chunksJoin, List.length_append] at hlen
        omega
      obtain ⟨m, hm⟩ : ∃ m, 1024 - cs1.length = m + 1 := ⟨1023 - cs1.length, by
        have : cs1.length ≤ 1023 := by
          have := List.length_append cs1 cs2  -- unused
          omega
        omega⟩
      rw [hm]
      rw [emplaceLoop_insert fld field_id src _ m c.1.length c.2.1 c.2.2 hup1
        (by
          rw [hdrop1, hcs2, chunksJoin]
          exact parseField_extend 11 c.1 _ _ hcchunk.1)
        hchead]
      rw [Nat.zero_add] at hdrop1 ⊢
      rw [hdrop1]
      rw [hsrcsplit, List.take_left, hcs2]
  · -- the erase computation
    have houtlen : (chunksJoin cs1 ++ fld ++ chunksJoin cs2).length =
        src.length + fld.length := by
      rw [hsrcsplit]
      simp [List.length_append]
      omega
    rw [sto_erase, if_neg (by omega)]
    have hCS : chunksJoin (cs1 ++ (fld, tyF, flF) :: cs2) =
        chunksJoin cs1 ++ fld ++ chunksJoin cs2 := by
      rw [chunksJoin_append, chunksJoin]
      rw [List.append_assoc]
    rw [eraseLoop_chunks field_id _ (cs1 ++ (fld, tyF, flF) :: cs2) 0 none 1024
      (by rw [List.drop_zero, hCS])
      (by
        intro c hc
        rcases List.mem_append.mp hc with hc1 | hc2
        · exact hchunks c (by simp [hc1])
        · rcases List.mem_cons.mp hc2 with hceq | hc3
          · subst hceq
            exact ⟨hfld, hfld0⟩
          · exact hchunks c (by simp [hc3]))
      (by
        rw [List.length_append, List.length_cons]
        omega)]
    rw [lastMatch_append, lastMatch_ne field_id cs1
      (fun c hc => by have := hlt c hc; omega), lastMatch]
    rw [if_pos hfid, lastMatch_ne field_id cs2 hne]
    dsimp only
    have htake : (chunksJoin cs1 ++ fld ++ chunksJoin cs2).take
        (0 + (chunksJoin cs1).length) = chunksJoin cs1 := by
      rw [Nat.zero_add, List.append_assoc, List.take_left]
    have hdrop : (chunksJoin cs1 ++ fld ++ chunksJoin cs2).drop
        (0 + (chunksJoin cs1).length + fld.length) = chunksJoin cs2 := by
      rw [Nat.zero_add, show (chunksJoin cs1).length + fld.length =
        (chunksJoin cs1 ++ fld).length from (List.length_append _ _).symm,
        List.drop_left]
    rw [htake, hdrop, hsrcsplit]

/-- Witness for C7: a one-field object (UInt32 field 2) and a wrapped
UInt32 field 1; emplace inserts in front, erase removes it again. -/
theorem C7_emplace_erase_roundtrip_witness :
    ∃ out, sto_emplace [34, 0, 0, 0, 5] [33, 0, 0, 0, 7] 131073 =
        Except.ok out ∧
      sto_erase out 131073 = Except.ok [34, 0, 0, 0, 5] :=
  C7_emplace_erase_roundtrip [34, 0, 0, 0, 5] [33, 0, 0, 0, 7] 131073
    [] [([34, 0, 0, 0, 5], 2, 2)] 2 1
    rfl
    (by
      intro c hc
      simp at hc
      subst hc
      exact ⟨rfl, by decide⟩)
    (by simp)
    (by
      intro c hc
      simp at hc
      subst hc
      decide)
    (by
      intro c cs2t h
      injection h with h1 h2
      subst h1
      decide)
    rfl rfl (by decide) (by decide) (by decide) (by decide)

end HookVerify
